import Mathlib

/-!
Verification of the `memory_allocator` repository: a shallow embedding in
Lean 4 of the NUMA-aware size-class allocator (`numa_alloc.c`) and the
reserve/commit linear arena (`arena_allocator.c`), together with theorems
settling the specification claims about them.

Machine integers are modelled as `Nat` with explicit reduction modulo
`2 ^ 64` where the C `size_t` arithmetic can wrap.  The C bit trick
`(v + (a - 1)) & ~(a - 1)` is embedded literally with `Nat` bitwise
operations (`&&&`, `^^^`), and its arithmetic meaning is proved, not
assumed.
-/

namespace MemoryAllocator

/-! ### 64-bit helpers

`size_t` on the reference platform is 64 bits wide. -/

def U64 : Nat := 2 ^ 64

/-- Bitwise complement on 64-bit words: `~x` in C is `x XOR (2^64 - 1)`. -/
def comp64 (x : Nat) : Nat := (U64 - 1) ^^^ (x % U64)

/-- `x - 1` in `size_t` arithmetic (wraps to `2^64 - 1` when `x = 0`). -/
def sub1_64 (x : Nat) : Nat := (x + (U64 - 1)) % U64

/-- The C idiom `(value + (alignment - 1)) & ~(alignment - 1)`,
used by `align_up` in `arena_allocator.c` and by the huge-page rounding
in `allocate_large_block` (`numa_alloc.c`), with `size_t` wrap-around. -/
def align_up (value alignment : Nat) : Nat :=
  ((value + sub1_64 alignment) % U64) &&& comp64 (sub1_64 alignment)

theorem sub1_64_eq {a : Nat} (h1 : 1 ≤ a) (h2 : a ≤ U64) : sub1_64 a = a - 1 := by
  unfold sub1_64 U64 at *
  have he : a + (2 ^ 64 - 1) = (a - 1) + 1 * 2 ^ 64 := by omega
  rw [he, Nat.add_mul_mod_self_right, Nat.mod_eq_of_lt (by omega)]

theorem testBit_U64_sub_one (i : Nat) : (U64 - 1).testBit i = decide (i < 64) := by
  have h : U64 - 1 = 2 ^ 64 - 1 := rfl
  rw [h, Nat.testBit_two_pow_sub_one]

theorem testBit_false_of_ge {y i : Nat} (hy : y < U64) (hi : 64 ≤ i) :
    y.testBit i = false := by
  apply Nat.testBit_lt_two_pow
  calc y < U64 := hy
    _ ≤ 2 ^ i := Nat.pow_le_pow_right (by omega) hi

theorem or_of_and_eq_zero : ∀ a b : Nat, a &&& b = 0 → a + b = a ||| b := by
  intro a
  induction a using Nat.strong_induction_on with
  | _ a ih =>
    intro b hab
    by_cases ha : a = 0
    · subst ha; simp
    · have hdiv : a / 2 &&& b / 2 = 0 := by
        rw [← Nat.and_div_two, hab]
      have hmod : ¬(a % 2 = 1 ∧ b % 2 = 1) := by
        intro hc
        have hone := Nat.and_mod_two_eq_one.mpr hc
        rw [hab] at hone
        simp at hone
      have ihd : a / 2 + b / 2 = a / 2 ||| b / 2 := by
        apply ih (a / 2) _ (b / 2) hdiv
        omega
      have horm : (a ||| b) % 2 = a % 2 + b % 2 := by
        rcases Nat.mod_two_eq_zero_or_one a with h1 | h1 <;>
          rcases Nat.mod_two_eq_zero_or_one b with h2 | h2
        · have hz : ¬((a ||| b) % 2 = 1) := by
            rw [Nat.or_mod_two_eq_one]
            omega
          omega
        · have ho : (a ||| b) % 2 = 1 := Nat.or_mod_two_eq_one.mpr (Or.inr h2)
          omega
        · have ho : (a ||| b) % 2 = 1 := Nat.or_mod_two_eq_one.mpr (Or.inl h1)
          omega
        · exact absurd ⟨h1, h2⟩ hmod
      have hord : (a ||| b) / 2 = a / 2 ||| b / 2 := Nat.or_div_two
      have hexa := Nat.div_add_mod a 2
      have hexb := Nat.div_add_mod b 2
      have hexo := Nat.div_add_mod (a ||| b) 2
      omega

theorem and_comp64_add (y m : Nat) (hy : y < U64) (hm : m < U64) :
    (y &&& comp64 m) + (y &&& m) = y := by
  have hcomp : ∀ i, (comp64 m).testBit i = (decide (i < 64) != m.testBit i) := by
    intro i
    unfold comp64
    rw [Nat.mod_eq_of_lt hm, Nat.testBit_xor, testBit_U64_sub_one]
  have hylow : ∀ i, y.testBit i = true → i < 64 := by
    intro i hyi
    by_contra hge
    rw [testBit_false_of_ge hy (by omega)] at hyi
    exact Bool.noConfusion hyi
  have hdisj : (y &&& comp64 m) &&& (y &&& m) = 0 := by
    apply Nat.eq_of_testBit_eq
    intro i
    simp only [Nat.testBit_and, Nat.zero_testBit, hcomp]
    by_cases hyi : y.testBit i
    · have hi := hylow i hyi
      simp only [hyi, Bool.true_and, hi, decide_eq_true_eq, decide_True]
      cases m.testBit i <;> simp
    · simp [hyi]
  have hor : (y &&& comp64 m) ||| (y &&& m) = y := by
    apply Nat.eq_of_testBit_eq
    intro i
    rw [← Nat.and_or_distrib_left]
    simp only [Nat.testBit_and, Nat.testBit_or, hcomp]
    by_cases hyi : y.testBit i
    · have hi := hylow i hyi
      simp only [hyi, Bool.true_and, hi, decide_eq_true_eq, decide_True]
      cases m.testBit i <;> simp
    · simp [hyi]
  calc (y &&& comp64 m) + (y &&& m)
      = (y &&& comp64 m) ||| (y &&& m) := or_of_and_eq_zero _ _ hdisj
    _ = y := hor

/-- Rounding never goes below the original value (any nonzero alignment). -/
theorem align_up_ge {value alignment : Nat} (ha1 : 1 ≤ alignment) (ha2 : alignment ≤ U64)
    (hno : value + (alignment - 1) < U64) : value ≤ align_up value alignment := by
  unfold align_up
  rw [sub1_64_eq ha1 ha2, Nat.mod_eq_of_lt hno]
  have h := and_comp64_add (value + (alignment - 1)) (alignment - 1) hno (by omega)
  have hle : (value + (alignment - 1)) &&& (alignment - 1) ≤ alignment - 1 :=
    Nat.and_le_right
  omega

/-- Rounding adds less than one alignment unit. -/
theorem align_up_le {value alignment : Nat} (ha1 : 1 ≤ alignment) (ha2 : alignment ≤ U64)
    (hno : value + (alignment - 1) < U64) :
    align_up value alignment ≤ value + (alignment - 1) := by
  unfold align_up
  rw [sub1_64_eq ha1 ha2, Nat.mod_eq_of_lt hno]
  exact Nat.and_le_left

/-- For power-of-two alignments the bit trick computes the usual round-up. -/
theorem align_up_pow2 {value k : Nat} (hk : k ≤ 64)
    (hno : value + (2 ^ k - 1) < U64) :
    align_up value (2 ^ k) = (value + (2 ^ k - 1)) / 2 ^ k * 2 ^ k := by
  have hkpos : 1 ≤ 2 ^ k := Nat.one_le_two_pow
  have hkle : 2 ^ k ≤ U64 := Nat.pow_le_pow_right (by omega) hk
  unfold align_up
  rw [sub1_64_eq hkpos hkle, Nat.mod_eq_of_lt hno]
  set y := value + (2 ^ k - 1) with hy
  have hylt : y < U64 := hno
  have hmlt : 2 ^ k - 1 < U64 := by omega
  apply Nat.eq_of_testBit_eq
  intro i
  have hcomp : (comp64 (2 ^ k - 1)).testBit i = (decide (i < 64) != decide (i < k)) := by
    unfold comp64
    rw [Nat.mod_eq_of_lt hmlt, Nat.testBit_xor, testBit_U64_sub_one,
      Nat.testBit_two_pow_sub_one]
  have hdivmul : y / 2 ^ k * 2 ^ k = (y >>> k) <<< k := by
    rw [Nat.shiftRight_eq_div_pow, Nat.shiftLeft_eq]
  rw [hdivmul, Nat.testBit_and, hcomp, Nat.testBit_shiftLeft, Nat.testBit_shiftRight]
  by_cases hik : k ≤ i
  · have h3 : k + (i - k) = i := by omega
    by_cases hi64 : i < 64
    · simp [hik, hi64, h3, Nat.not_lt.mpr hik]
    · have h4 : y.testBit i = false := testBit_false_of_ge hylt (by omega)
      simp [hik, hi64, h3, h4]
  · have hik2 : i < k := by omega
    have hi64 : i < 64 := by omega
    simp [hik, hik2, hi64]

theorem align_up_pow2_dvd {value k : Nat} (hk : k ≤ 64)
    (hno : value + (2 ^ k - 1) < U64) : 2 ^ k ∣ align_up value (2 ^ k) := by
  rw [align_up_pow2 hk hno]
  exact Dvd.intro_left _ rfl

/-- Page rounding of a nonzero size yields at least one page. -/
theorem align_up_page_lower {c : Nat} (h1 : 1 ≤ c) (hno : c + 4095 < U64) :
    4096 ≤ align_up c 4096 := by
  have h4096 : (4096 : Nat) = 2 ^ 12 := by norm_num
  have hk : (2 : Nat) ^ 12 - 1 = 4095 := by norm_num
  rw [h4096, align_up_pow2 (by omega) (by rw [hk]; exact hno)]
  have hq : 1 ≤ (c + (2 ^ 12 - 1)) / 2 ^ 12 := by
    rw [Nat.le_div_iff_mul_le (by norm_num)]
    omega
  calc (2 : Nat) ^ 12 = 1 * 2 ^ 12 := by ring
    _ ≤ (c + (2 ^ 12 - 1)) / 2 ^ 12 * 2 ^ 12 := Nat.mul_le_mul_right _ hq

/-! ### Linear arena (`arena_allocator.c` / `arena_allocator.h`)

The arena struct is four `size_t` fields, so `ARENA_HEADER_SIZE =
sizeof(arena_allocator_t) = 32` and `DEFAULT_ALIGNMENT = sizeof(void*) = 8`.
`PAGE_SIZE` models `sysconf(_SC_PAGESIZE)` on the reference platform (the
source's own fallback value is 4096).  Platform commit failure is an
explicit boolean oracle; reserve failure at creation simply yields no
arena. -/

def PAGE_SIZE : Nat := 4096

def ARENA_HEADER_SIZE : Nat := 32

def DEFAULT_ALIGNMENT : Nat := 8

structure ArenaAllocator where
  reserve_size : Nat
  commit_size : Nat
  position : Nat
  commit_position : Nat
deriving DecidableEq

def min_size (a b : Nat) : Nat := if a < b then a else b

def arena_create (reserve_size commit_size : Nat) : Option ArenaAllocator :=
  if reserve_size = 0 ∨ commit_size = 0 then none
  else
    let reserve2 := align_up reserve_size PAGE_SIZE
    let commit2 := align_up commit_size PAGE_SIZE
    let commit3 := if commit2 > reserve2 then reserve2 else commit2
    some { reserve_size := reserve2, commit_size := commit3,
           position := ARENA_HEADER_SIZE, commit_position := commit3 }

def arena_alloc_aligned (arena : ArenaAllocator) (size alignment : Nat)
    (commitOk : Bool) : Option Nat × ArenaAllocator :=
  if size = 0 then (none, arena)
  else
    let aligned_position := align_up arena.position alignment
    let new_position := (aligned_position + size) % U64
    if new_position > arena.reserve_size then (none, arena)
    else if new_position > arena.commit_position then
      if commitOk then
        let new_commit_position :=
          min_size (align_up new_position arena.commit_size) arena.reserve_size
        (some aligned_position,
         { arena with position := new_position,
                      commit_position := new_commit_position })
      else (none, arena)
    else (some aligned_position, { arena with position := new_position })

def arena_alloc (arena : ArenaAllocator) (size : Nat) (commitOk : Bool) :
    Option Nat × ArenaAllocator :=
  arena_alloc_aligned arena size DEFAULT_ALIGNMENT commitOk

def arena_reset (arena : ArenaAllocator) : ArenaAllocator :=
  { arena with position := ARENA_HEADER_SIZE }

def arena_get_position (arena : ArenaAllocator) : Nat := arena.position

def arena_set_position (arena : ArenaAllocator) (position : Nat) : ArenaAllocator :=
  if ARENA_HEADER_SIZE ≤ position ∧ position ≤ arena.reserve_size then
    { arena with position := position }
  else arena

/-- One steady-state arena operation.  Sizes and alignments carry the bounds
under which the corresponding real call can run at all: a reservation or an
allocation of close to the full 2^64-byte address space cannot succeed on the
platform (`mmap`/`VirtualAlloc` reserve within a sub-2^63 region, and the
`memset` of a near-2^64-byte slot faults), and the documented precondition of
`alloc_aligned` is a power-of-two alignment, here relaxed to any nonzero
alignment below the address-space bound. -/
inductive ArenaStep : ArenaAllocator → ArenaAllocator → Prop where
  | alloc_aligned (a : ArenaAllocator) (size alignment : Nat) (commitOk : Bool)
      (hsize : size < 2 ^ 62) (ha1 : 1 ≤ alignment) (ha2 : alignment ≤ 2 ^ 62) :
      ArenaStep a (arena_alloc_aligned a size alignment commitOk).2
  | alloc (a : ArenaAllocator) (size : Nat) (commitOk : Bool)
      (hsize : size < 2 ^ 62) :
      ArenaStep a (arena_alloc a size commitOk).2
  | reset (a : ArenaAllocator) : ArenaStep a (arena_reset a)
  | set_position (a : ArenaAllocator) (pos : Nat) :
      ArenaStep a (arena_set_position a pos)

/-- Same steps except `set_position`. -/
inductive ArenaStepNS : ArenaAllocator → ArenaAllocator → Prop where
  | alloc_aligned (a : ArenaAllocator) (size alignment : Nat) (commitOk : Bool)
      (hsize : size < 2 ^ 62) (ha1 : 1 ≤ alignment) (ha2 : alignment ≤ 2 ^ 62) :
      ArenaStepNS a (arena_alloc_aligned a size alignment commitOk).2
  | alloc (a : ArenaAllocator) (size : Nat) (commitOk : Bool)
      (hsize : size < 2 ^ 62) :
      ArenaStepNS a (arena_alloc a size commitOk).2
  | reset (a : ArenaAllocator) : ArenaStepNS a (arena_reset a)

inductive ArenaReach : ArenaAllocator → Prop where
  | created (reserve_size commit_size : Nat) (a : ArenaAllocator)
      (hr : reserve_size ≤ 2 ^ 61) (hc : commit_size ≤ 2 ^ 61)
      (h : arena_create reserve_size commit_size = some a) : ArenaReach a
  | step (a b : ArenaAllocator) (ha : ArenaReach a) (hs : ArenaStep a b) :
      ArenaReach b

inductive ArenaReachNS : ArenaAllocator → Prop where
  | created (reserve_size commit_size : Nat) (a : ArenaAllocator)
      (hr : reserve_size ≤ 2 ^ 61) (hc : commit_size ≤ 2 ^ 61)
      (h : arena_create reserve_size commit_size = some a) : ArenaReachNS a
  | step (a b : ArenaAllocator) (ha : ArenaReachNS a) (hs : ArenaStepNS a b) :
      ArenaReachNS b

def ArenaInv (a : ArenaAllocator) : Prop :=
  ARENA_HEADER_SIZE ≤ a.position ∧ a.position ≤ a.reserve_size ∧
  ARENA_HEADER_SIZE ≤ a.commit_position ∧ a.commit_position ≤ a.reserve_size ∧
  1 ≤ a.commit_size ∧ a.commit_size ≤ a.reserve_size ∧ a.reserve_size < 2 ^ 62

theorem arena_create_inv {r c : Nat} {a : ArenaAllocator}
    (hr : r ≤ 2 ^ 61) (hc : c ≤ 2 ^ 61)
    (h : arena_create r c = some a) : ArenaInv a := by
  unfold arena_create PAGE_SIZE ARENA_HEADER_SIZE at h
  split at h
  · exact absurd h (by simp)
  · rename_i hnz
    have hr1 : 1 ≤ r := by omega
    have hc1 : 1 ≤ c := by omega
    simp only [Option.some.injEq] at h
    have hU : (2 : Nat) ^ 61 + 4095 < U64 := by unfold U64; norm_num
    have hU2 : (4096 : Nat) ≤ U64 := by unfold U64; norm_num
    have hrlo : 4096 ≤ align_up r 4096 := align_up_page_lower hr1 (by omega)
    have hrhi : align_up r 4096 ≤ r + 4095 :=
      align_up_le (by norm_num) hU2 (by omega)
    have hclo : 4096 ≤ align_up c 4096 := align_up_page_lower hc1 (by omega)
    have hchi : align_up c 4096 ≤ c + 4095 :=
      align_up_le (by norm_num) hU2 (by omega)
    subst h
    unfold ArenaInv ARENA_HEADER_SIZE
    simp only
    split <;> omega

/-- Effect of one allocation on the arena bounds: the full invariant is
preserved, and so is `position ≤ commit_position` when it held before. -/
theorem arena_alloc_aligned_inv {a : ArenaAllocator} {size alignment : Nat}
    {commitOk : Bool} (hinv : ArenaInv a)
    (hsize : size < 2 ^ 62) (ha1 : 1 ≤ alignment) (ha2 : alignment ≤ 2 ^ 62) :
    ArenaInv (arena_alloc_aligned a size alignment commitOk).2 ∧
      (a.position ≤ a.commit_position →
        (arena_alloc_aligned a size alignment commitOk).2.position ≤
          (arena_alloc_aligned a size alignment commitOk).2.commit_position) := by
  obtain ⟨h1, h2, h3, h4, h5, h6, h7⟩ := hinv
  unfold arena_alloc_aligned
  by_cases hsz : size = 0
  · simp only [hsz, if_true]
    exact ⟨⟨h1, h2, h3, h4, h5, h6, h7⟩, fun h => h⟩
  · simp only [hsz, if_false]
    have hbig : (2 : Nat) ^ 62 + 2 ^ 62 < U64 := by unfold U64; norm_num
    have hgea : a.position ≤ align_up a.position alignment :=
      align_up_ge ha1 (by unfold U64; omega) (by unfold U64; omega)
    have hlea : align_up a.position alignment ≤ a.position + (alignment - 1) :=
      align_up_le ha1 (by unfold U64; omega) (by unfold U64; omega)
    have hnmod : (align_up a.position alignment + size) % U64 =
        align_up a.position alignment + size := by
      apply Nat.mod_eq_of_lt
      unfold U64
      omega
    rw [hnmod]
    set np := align_up a.position alignment + size with hnp
    by_cases hover : np > a.reserve_size
    · simp only [hover, if_true]
      exact ⟨⟨h1, h2, h3, h4, h5, h6, h7⟩, fun h => h⟩
    · simp only [hover, if_false]
      have hnple : np ≤ a.reserve_size := by omega
      by_cases hcommit : np > a.commit_position
      · simp only [hcommit, if_true]
        cases commitOk with
        | false => exact ⟨⟨h1, h2, h3, h4, h5, h6, h7⟩, fun h => h⟩
        | true =>
          simp only [if_true]
          have hgec : np ≤ align_up np a.commit_size :=
            align_up_ge h5 (by unfold U64; omega) (by unfold U64; omega)
          have hmin : np ≤ min_size (align_up np a.commit_size) a.reserve_size ∧
              min_size (align_up np a.commit_size) a.reserve_size ≤ a.reserve_size := by
            unfold min_size
            split <;> omega
          refine ⟨⟨?_, ?_, ?_, ?_, h5, h6, h7⟩, fun _ => ?_⟩
          · show ARENA_HEADER_SIZE ≤ np
            omega
          · show np ≤ a.reserve_size
            omega
          · show ARENA_HEADER_SIZE ≤ min_size (align_up np a.commit_size) a.reserve_size
            omega
          · show min_size (align_up np a.commit_size) a.reserve_size ≤ a.reserve_size
            omega
          · show np ≤ min_size (align_up np a.commit_size) a.reserve_size
            omega
      · simp only [hcommit, if_false]
        refine ⟨⟨?_, ?_, h3, h4, h5, h6, h7⟩, fun _ => ?_⟩
        · show ARENA_HEADER_SIZE ≤ np
          omega
        · show np ≤ a.reserve_size
          omega
        · show np ≤ a.commit_position
          omega

theorem arena_step_inv {a b : ArenaAllocator} (hinv : ArenaInv a)
    (hs : ArenaStep a b) : ArenaInv b := by
  cases hs with
  | alloc_aligned size alignment commitOk hsize ha1 ha2 =>
    exact (arena_alloc_aligned_inv hinv hsize ha1 ha2).1
  | alloc size commitOk hsize =>
    exact (arena_alloc_aligned_inv hinv hsize (by decide) (by decide)).1
  | reset =>
    obtain ⟨h1, h2, h3, h4, h5, h6, h7⟩ := hinv
    exact ⟨Nat.le_refl _, le_trans h1 h2, h3, h4, h5, h6, h7⟩
  | set_position pos =>
    obtain ⟨h1, h2, h3, h4, h5, h6, h7⟩ := hinv
    unfold arena_set_position
    split
    · rename_i hcond
      exact ⟨hcond.1, hcond.2, h3, h4, h5, h6, h7⟩
    · exact ⟨h1, h2, h3, h4, h5, h6, h7⟩

theorem arena_reach_inv {a : ArenaAllocator} (h : ArenaReach a) : ArenaInv a := by
  induction h with
  | created r c a hr hc hcr => exact arena_create_inv hr hc hcr
  | step a b ha hs ih => exact arena_step_inv ih hs

theorem arena_reachNS_inv {a : ArenaAllocator} (h : ArenaReachNS a) :
    ArenaInv a ∧ a.position ≤ a.commit_position := by
  induction h with
  | created r c a hr hc hcr =>
    refine ⟨arena_create_inv hr hc hcr, ?_⟩
    unfold arena_create PAGE_SIZE ARENA_HEADER_SIZE at hcr
    split at hcr
    · exact absurd hcr (by simp)
    · simp only [Option.some.injEq] at hcr
      subst hcr
      simp only
      rename_i hnz
      have hU : (2 : Nat) ^ 61 + 4095 < U64 := by unfold U64; norm_num
      have hc1 : 1 ≤ c := by omega
      have hclo : 4096 ≤ align_up c 4096 := align_up_page_lower hc1 (by omega)
      have hr1 : 1 ≤ r := by omega
      have hrlo : 4096 ≤ align_up r 4096 := align_up_page_lower hr1 (by omega)
      split <;> omega
  | step a b ha hs ih =>
    cases hs with
    | alloc_aligned size alignment commitOk hsize ha1 ha2 =>
      have h := @arena_alloc_aligned_inv a size alignment commitOk ih.1 hsize ha1 ha2
      exact ⟨h.1, h.2 ih.2⟩
    | alloc size commitOk hsize =>
      have h := @arena_alloc_aligned_inv a size DEFAULT_ALIGNMENT commitOk ih.1 hsize
        (by decide) (by decide)
      exact ⟨h.1, h.2 ih.2⟩
    | reset =>
      exact ⟨arena_step_inv ih.1 (ArenaStep.reset a), ih.1.2.2.1⟩

/-! ### NUMA allocator (`numa_alloc.c`): constants and data model

Pointers are abstract addresses: a small block is identified by its node
pool and the byte offset of its user area inside that pool; each large
block is a fresh anonymous mapping with its own identity.  Thread ids are
`Nat`; `tnode` arguments carry the value `get_current_numa_node()` would
return on the calling thread.  `calloc` of the per-thread arena record and
of the topology is modelled as always succeeding; `mmap` success for the
large path is an explicit boolean oracle. -/

def MAX_NUMA_NODES : Nat := 8

def SIZE_CLASSES : Nat := 8

def REFILL_BATCH_SIZE : Nat := 64

def HUGE_PAGE_SIZE : Nat := 2 * 1024 * 1024

/-- `sizeof(block_header_t)`: one `size_t` plus two `int`s, padded. -/
def BLOCK_HEADER_SIZE : Nat := 16

def SIZE_CLASS_SIZES : List Nat := [16, 32, 64, 128, 256, 512, 1024, 2048]

inductive Ptr where
  | small (node off : Nat)
  | large (id : Nat)
deriving DecidableEq

/-- `block_header_t`; `size_class = -1` marks large allocations. -/
structure BlockHeader where
  size : Nat
  size_class : Int
  numa_node : Nat
deriving DecidableEq

/-- `thread_arena_t`.  The per-class singly-linked free stacks, threaded in
the C through the first word of each free block's user storage, are
modelled as explicit lists.  Only indices below `SIZE_CLASSES` are ever
touched on reachable states. -/
structure ThreadArena where
  numa_node : Nat
  free_lists : Nat → List Ptr
  stats_allocs : Nat
  stats_frees : Nat

/-- `node_pool_t` (the mutex guards `used`; the model interleaves whole
operations, which the critical section makes atomic anyway). -/
structure NodePool where
  node_id : Nat
  total_size : Nat
  used : Nat
deriving DecidableEq

/-- The global state of `numa_alloc.c`, the per-thread TLS arenas, and the
byte contents of every block's user area. -/
structure AllocState where
  initialized : Bool
  node_pools : Nat → Option NodePool
  arenas : Nat → Option ThreadArena
  headers : Ptr → Option BlockHeader
  contents : Ptr → Nat → Nat
  next_large_id : Nat

/-- The search loop of `get_size_class`: walk the class-size array from
index `i` upward, returning the first index whose size bound holds, and
`-1` when the array is exhausted. -/
def get_size_class_from (size : Nat) : List Nat → Nat → Int
  | [], _ => -1
  | s0 :: rest, i => if size ≤ s0 then (i : Int) else get_size_class_from size rest (i + 1)

def get_size_class (size : Nat) : Int := get_size_class_from size SIZE_CLASS_SIZES 0

/-- The mapping length `aligned_size` computed by `allocate_large_block`:
huge-page rounding only when the header-inclusive size reaches
`HUGE_PAGE_SIZE`; smaller requests keep `total_size` unrounded. -/
def large_aligned_size (size : Nat) : Nat :=
  if size + BLOCK_HEADER_SIZE ≥ HUGE_PAGE_SIZE then
    align_up (size + BLOCK_HEADER_SIZE) HUGE_PAGE_SIZE
  else size + BLOCK_HEADER_SIZE

def allocate_large_block (numa_node size : Nat) (mmapOk : Bool) (s : AllocState) :
    Option Ptr × AllocState :=
  if mmapOk then
    let p := Ptr.large s.next_large_id
    (some p,
     { s with
        headers := Function.update s.headers p
          (some { size := large_aligned_size size, size_class := -1,
                  numa_node := numa_node }),
        contents := Function.update s.contents p (fun _ => 0),
        next_large_id := s.next_large_id + 1 })
  else (none, s)

/-- `free_large_block`: reads the mapping length from the header and
unmaps.  The first component is the length handed to `munmap`.  (Freeing a
pointer that carries no live header is undefined behaviour in the C; the
model leaves the state unchanged there.) -/
def free_large_block (p : Ptr) (s : AllocState) : Nat × AllocState :=
  match s.headers p with
  | some hdr => (hdr.size, { s with headers := Function.update s.headers p none })
  | none => (0, s)

/-- User pointer of batch block `i`: the batch starts at pool offset
`batch_off`, each block is a header followed by `block_size` user bytes. -/
def batch_ptr (node batch_off block_size i : Nat) : Ptr :=
  Ptr.small node (batch_off + i * (block_size + BLOCK_HEADER_SIZE) + BLOCK_HEADER_SIZE)

/-- The `head` list built by the carving loop of `slow_path_alloc` after
`n` iterations (each block is pushed at the front). -/
def batch_chain (node batch_off block_size n : Nat) : List Ptr :=
  (List.range n).foldl (fun acc i => batch_ptr node batch_off block_size i :: acc) []

def slow_path_alloc (arena : ThreadArena) (size : Nat) (size_class : Int)
    (mmapOk : Bool) (s : AllocState) : Option Ptr × ThreadArena × AllocState :=
  if size_class < 0 then
    let r := allocate_large_block arena.numa_node size mmapOk s
    (r.1, arena, r.2)
  else
    match s.node_pools arena.numa_node with
    | none => (none, arena, s)
    | some pool =>
      let block_size := SIZE_CLASS_SIZES.getD size_class.toNat 0
      let total_needed := (block_size + BLOCK_HEADER_SIZE) * REFILL_BATCH_SIZE
      if pool.used + total_needed > pool.total_size then (none, arena, s)
      else
        let batch_off := pool.used
        let pool2 := { pool with used := pool.used + total_needed }
        let hdr : BlockHeader :=
          { size := block_size, size_class := size_class,
            numa_node := arena.numa_node }
        let headers2 := (List.range REFILL_BATCH_SIZE).foldl
          (fun h i =>
            Function.update h (batch_ptr arena.numa_node batch_off block_size i)
              (some hdr))
          s.headers
        match batch_chain arena.numa_node batch_off block_size REFILL_BATCH_SIZE with
        | [] => (none, arena, s)
        | result :: rest =>
          (some result,
           { arena with free_lists :=
               Function.update arena.free_lists size_class.toNat rest },
           { s with
              node_pools := Function.update s.node_pools arena.numa_node (some pool2),
              headers := headers2 })

/-- A freshly `calloc`ed `thread_arena_t` homed on `tnode`. -/
def fresh_arena (tnode : Nat) : ThreadArena :=
  { numa_node := tnode, free_lists := fun _ => [], stats_allocs := 0,
    stats_frees := 0 }

/-- The tail of `numalloc` beyond the fast path: run `slow_path_alloc`,
count the allocation on success, and keep the thread's arena installed in
TLS (as `get_or_create_arena` already did). -/
def numalloc_slow (t size : Nat) (size_class : Int) (mmapOk : Bool)
    (s : AllocState) (arena : ThreadArena) : Option Ptr × AllocState :=
  let r := slow_path_alloc arena size size_class mmapOk s
  let arena2 :=
    if r.1.isSome then { r.2.1 with stats_allocs := r.2.1.stats_allocs + 1 }
    else r.2.1
  (r.1, { r.2.2 with arenas := Function.update r.2.2.arenas t (some arena2) })

def numalloc (t tnode size : Nat) (mmapOk : Bool) (s : AllocState) :
    Option Ptr × AllocState :=
  if size = 0 then (none, s)
  else if ¬s.initialized then (none, s)
  else
    let arena :=
      match s.arenas t with
      | some a => a
      | none => fresh_arena tnode
    let size_class := get_size_class size
    if 0 ≤ size_class then
      match arena.free_lists size_class.toNat with
      | block :: rest =>
        let arena2 := { arena with
          free_lists := Function.update arena.free_lists size_class.toNat rest,
          stats_allocs := arena.stats_allocs + 1 }
        (some block, { s with arenas := Function.update s.arenas t (some arena2) })
      | [] => numalloc_slow t size size_class mmapOk s arena
    else numalloc_slow t size size_class mmapOk s arena

/-- `numalloc_free(ptr)` on thread `t` at node `tnode`.  Freeing a pointer
no allocation produced is undefined behaviour in the C (a wild header
read); the model makes it a no-op.  Note the large path returns before the
counter code. -/
def numalloc_free (t tnode : Nat) (p : Ptr) (s : AllocState) : AllocState :=
  match s.headers p with
  | none => s
  | some hdr =>
    if hdr.size_class < 0 then (free_large_block p s).2
    else
      let arena :=
        match s.arenas t with
        | some a => a
        | none => fresh_arena tnode
      let arena2 := { arena with
        free_lists := Function.update arena.free_lists hdr.size_class.toNat
          (p :: arena.free_lists hdr.size_class.toNat),
        stats_frees := arena.stats_frees + 1 }
      { s with arenas := Function.update s.arenas t (some arena2) }

/-- The indices `i` at which the loop of `numalloc_init` stores into
`g_node_pools[i]`, a table of `MAX_NUMA_NODES` slots; the loop bound is
the discovered `num_nodes`, unchecked against the table capacity. -/
def numalloc_init_pool_indices (num_nodes : Nat) : List Nat := List.range num_nodes

/-- The state right after a successful `numalloc_init(pool_size)` that
discovered `num_nodes` NUMA nodes: one zeroed pool per node, no thread
arenas, no outstanding blocks. -/
def initialState (num_nodes pool_size : Nat) : AllocState :=
  { initialized := true,
    node_pools := fun i =>
      if i < num_nodes then some { node_id := i, total_size := pool_size, used := 0 }
      else none,
    arenas := fun _ => none,
    headers := fun _ => none,
    contents := fun _ _ => 0,
    next_large_id := 0 }

/-- `numalloc_cleanup`: releases every node pool and clears the
initialised flag; thread-local arenas are deliberately left behind (the C
never reclaims TLS caches). -/
def numalloc_cleanup (s : AllocState) : AllocState :=
  if ¬s.initialized then s
  else { s with initialized := false, node_pools := fun _ => none }

def numalloc_calloc (t tnode num size : Nat) (mmapOk : Bool) (s : AllocState) :
    Option Ptr × AllocState :=
  if num = 0 ∨ size = 0 then (none, s)
  else
    let total := num * size % U64
    if size ≠ total / num then (none, s)
    else
      let r := numalloc t tnode total mmapOk s
      match r.1 with
      | some p =>
        (some p,
         { r.2 with contents := (Function.update r.2.contents p
             (fun off => if off < total then 0 else r.2.contents p off)) })
      | none => (none, r.2)

def numalloc_realloc (t tnode : Nat) (p : Option Ptr) (size : Nat) (mmapOk : Bool)
    (s : AllocState) : Option Ptr × AllocState :=
  match p with
  | none => numalloc t tnode size mmapOk s
  | some ptr =>
    if size = 0 then (none, numalloc_free t tnode ptr s)
    else
      match s.headers ptr with
      | none => (none, s)
      | some hdr =>
        let old_size :=
          if 0 ≤ hdr.size_class then SIZE_CLASS_SIZES.getD hdr.size_class.toNat 0
          else hdr.size
        if size ≤ old_size then (some ptr, s)
        else
          let r := numalloc t tnode size mmapOk s
          match r.1 with
          | some q =>
            (some q,
             numalloc_free t tnode ptr
               { r.2 with contents := (Function.update r.2.contents q
                   (fun off =>
                     if off < old_size then r.2.contents ptr off
                     else r.2.contents q off)) })
          | none => (none, r.2)

def numalloc_get_thread_stats (t : Nat) (s : AllocState) : Nat × Nat :=
  match s.arenas t with
  | some arena => (arena.stats_allocs, arena.stats_frees)
  | none => (0, 0)

/-- The allocation counter a thread would observe for itself. -/
def thread_allocs (s : AllocState) (t : Nat) : Nat :=
  match s.arenas t with
  | some arena => arena.stats_allocs
  | none => 0

/-- The free counter a thread would observe for itself. -/
def thread_frees (s : AllocState) (t : Nat) : Nat :=
  match s.arenas t with
  | some arena => arena.stats_frees
  | none => 0

/-- One steady-state operation of the NUMA allocator, performed by an
arbitrary thread on an arbitrary current node. -/
inductive Step : AllocState → AllocState → Prop where
  | alloc (t tnode size : Nat) (mmapOk : Bool) (s : AllocState) :
      Step s (numalloc t tnode size mmapOk s).2
  | free (t tnode : Nat) (p : Ptr) (s : AllocState) :
      Step s (numalloc_free t tnode p s)
  | calloc (t tnode num size : Nat) (mmapOk : Bool) (s : AllocState) :
      Step s (numalloc_calloc t tnode num size mmapOk s).2
  | realloc (t tnode : Nat) (p : Option Ptr) (size : Nat) (mmapOk : Bool)
      (s : AllocState) :
      Step s (numalloc_realloc t tnode p size mmapOk s).2

inductive Reachable : AllocState → Prop where
  | init (num_nodes pool_size : Nat) : Reachable (initialState num_nodes pool_size)
  | step (s s2 : AllocState) (h : Reachable s) (hs : Step s s2) : Reachable s2

/-- Header/free-list coherence of the steady state:
(1) every block on any cache's class-`i` stack has a live header of class
`i`; (2) every live small-block header lies below its node pool's
watermark; (3) large ids at or above the allocation counter are unused;
(4) every live header's class is the large sentinel or a small class
index. -/
def Inv (s : AllocState) : Prop :=
  (∀ t arena i p, s.arenas t = some arena → p ∈ arena.free_lists i →
    ∃ hdr, s.headers p = some hdr ∧ hdr.size_class = (i : Int)) ∧
  (∀ nd off hdr, s.headers (Ptr.small nd off) = some hdr →
    ∃ pool, s.node_pools nd = some pool ∧ off < pool.used) ∧
  (∀ id, s.next_large_id ≤ id → s.headers (Ptr.large id) = none) ∧
  (∀ p hdr, s.headers p = some hdr →
    hdr.size_class = -1 ∨ (0 ≤ hdr.size_class ∧ hdr.size_class < SIZE_CLASSES))

/-! ### Generic lemmas about the model building blocks -/

theorem foldl_update_lookup {α β : Type} [DecidableEq α] (keys : List α)
    (f : α → Option β) (v : Option β) (p : α) :
    (keys.foldl (fun h k => Function.update h k v) f) p =
      if p ∈ keys then v else f p := by
  induction keys generalizing f with
  | nil => simp
  | cons k ks ih =>
    simp only [List.foldl_cons, ih, List.mem_cons]
    by_cases hp : p ∈ ks
    · simp [hp]
    · by_cases hpk : p = k
      · subst hpk
        simp [hp, Function.update_same]
      · simp [hp, hpk, Function.update_noteq hpk]

theorem batch_chain_succ (node boff bs n : Nat) :
    batch_chain node boff bs (n + 1) =
      batch_ptr node boff bs n :: batch_chain node boff bs n := by
  unfold batch_chain
  rw [List.range_succ, List.foldl_append]
  rfl

theorem mem_batch_chain {node boff bs n : Nat} {p : Ptr} :
    p ∈ batch_chain node boff bs n ↔ ∃ i, i < n ∧ p = batch_ptr node boff bs i := by
  induction n with
  | zero =>
    simp [batch_chain]
  | succ n ih =>
    rw [batch_chain_succ]
    simp only [List.mem_cons, ih]
    constructor
    · rintro (h | ⟨i, hi, hp⟩)
      · exact ⟨n, by omega, h⟩
      · exact ⟨i, by omega, hp⟩
    · rintro ⟨i, hi, hp⟩
      by_cases hin : i = n
      · subst hin
        exact Or.inl hp
      · exact Or.inr ⟨i, by omega, hp⟩

theorem batch_chain_length (node boff bs n : Nat) :
    (batch_chain node boff bs n).length = n := by
  induction n with
  | zero => rfl
  | succ n ih => rw [batch_chain_succ, List.length_cons, ih]

theorem batch_ptr_inj {node boff bs i j : Nat} (h : batch_ptr node boff bs i = batch_ptr node boff bs j) : i = j := by
  unfold batch_ptr at h
  simp only [Ptr.small.injEq] at h
  have hs : 0 < bs + BLOCK_HEADER_SIZE := by unfold BLOCK_HEADER_SIZE; omega
  have := h.2
  by_contra hij
  rcases Nat.lt_or_ge i j with hij2 | hij2
  · have : i * (bs + BLOCK_HEADER_SIZE) < j * (bs + BLOCK_HEADER_SIZE) :=
      (Nat.mul_lt_mul_right hs).mpr hij2
    omega
  · have hij3 : j < i := by omega
    have : j * (bs + BLOCK_HEADER_SIZE) < i * (bs + BLOCK_HEADER_SIZE) :=
      (Nat.mul_lt_mul_right hs).mpr hij3
    omega

/-- Every class size on the ladder is at least 16 bytes. -/
theorem size_class_sizes_lower (i : Nat) (h : i < SIZE_CLASSES) :
    16 ≤ SIZE_CLASS_SIZES.getD i 0 := by
  unfold SIZE_CLASSES at h
  interval_cases i <;> decide

/-- Unrolling of the `get_size_class` search loop. -/
theorem get_size_class_eq (n : Nat) :
    get_size_class n =
      if n ≤ 16 then 0 else if n ≤ 32 then 1 else if n ≤ 64 then 2
      else if n ≤ 128 then 3 else if n ≤ 256 then 4 else if n ≤ 512 then 5
      else if n ≤ 1024 then 6 else if n ≤ 2048 then 7 else -1 := by
  simp only [get_size_class, SIZE_CLASS_SIZES, get_size_class_from]
  norm_num

/-- `get_size_class` returns `-1` or a valid class index. -/
theorem get_size_class_range (n : Nat) :
    get_size_class n = -1 ∨
      (0 ≤ get_size_class n ∧ get_size_class n < SIZE_CLASSES) := by
  rw [get_size_class_eq]
  unfold SIZE_CLASSES
  split
  · right; omega
  · split
    · right; omega
    · split
      · right; omega
      · split
        · right; omega
        · split
          · right; omega
          · split
            · right; omega
            · split
              · right; omega
              · split
                · right; omega
                · left; rfl

/-! ### Invariant preservation for the NUMA allocator -/

theorem inv_initialState (num_nodes pool_size : Nat) :
    Inv (initialState num_nodes pool_size) := by
  refine ⟨?_, ?_, ?_, ?_⟩
  · intro t arena i p ha hp
    simp [initialState] at ha
  · intro nd off hdr hh
    simp [initialState] at hh
  · intro id hid
    rfl
  · intro p hdr hh
    simp [initialState] at hh

/-- What the small-class refill of `slow_path_alloc` computes when the pool
has room: pop block `B-1`, install blocks `B-2 … 0`, advance the
watermark, and register all `B` headers. -/
theorem slow_path_alloc_small_eq (arena : ThreadArena) (size : Nat) (sc : Int)
    (mmapOk : Bool) (s : AllocState) (pool : NodePool)
    (hsc0 : 0 ≤ sc)
    (hpool : s.node_pools arena.numa_node = some pool)
    (hfit : ¬(pool.used +
        (SIZE_CLASS_SIZES.getD sc.toNat 0 + BLOCK_HEADER_SIZE) * REFILL_BATCH_SIZE >
        pool.total_size)) :
    slow_path_alloc arena size sc mmapOk s =
      (some (batch_ptr arena.numa_node pool.used (SIZE_CLASS_SIZES.getD sc.toNat 0)
          (REFILL_BATCH_SIZE - 1)),
       { arena with free_lists := (Function.update arena.free_lists sc.toNat
           (batch_chain arena.numa_node pool.used (SIZE_CLASS_SIZES.getD sc.toNat 0)
             (REFILL_BATCH_SIZE - 1))) },
       { s with
          node_pools := (Function.update s.node_pools arena.numa_node
            (some { pool with used := pool.used +
              (SIZE_CLASS_SIZES.getD sc.toNat 0 + BLOCK_HEADER_SIZE) *
                REFILL_BATCH_SIZE })),
          headers := ((List.range REFILL_BATCH_SIZE).foldl
            (fun h i =>
              Function.update h
                (batch_ptr arena.numa_node pool.used (SIZE_CLASS_SIZES.getD sc.toNat 0) i)
                (some { size := SIZE_CLASS_SIZES.getD sc.toNat 0, size_class := sc,
                        numa_node := arena.numa_node }))
            s.headers) }) := by
  have h64 : batch_chain arena.numa_node pool.used
      (SIZE_CLASS_SIZES.getD sc.toNat 0) REFILL_BATCH_SIZE =
      batch_ptr arena.numa_node pool.used (SIZE_CLASS_SIZES.getD sc.toNat 0)
        (REFILL_BATCH_SIZE - 1) ::
      batch_chain arena.numa_node pool.used (SIZE_CLASS_SIZES.getD sc.toNat 0)
        (REFILL_BATCH_SIZE - 1) :=
    batch_chain_succ _ _ _ 63
  unfold slow_path_alloc
  rw [if_neg (by omega), hpool]
  dsimp only
  rw [if_neg hfit, h64]

/-- A large-block allocation adds one header at a fresh mapping and changes
nothing else the invariant tracks. -/
theorem inv_allocate_large_block {s : AllocState} (node size : Nat) (mmapOk : Bool)
    (hinv : Inv s) :
    Inv (allocate_large_block node size mmapOk s).2 ∧
    (∀ p hdr, s.headers p = some hdr →
      (allocate_large_block node size mmapOk s).2.headers p = some hdr) ∧
    (∀ p, (∀ id, s.next_large_id ≤ id → p ≠ Ptr.large id) →
      (allocate_large_block node size mmapOk s).2.contents p = s.contents p) ∧
    (allocate_large_block node size mmapOk s).2.arenas = s.arenas ∧
    (allocate_large_block node size mmapOk s).2.node_pools = s.node_pools := by
  obtain ⟨h1, h2, h3, h4⟩ := hinv
  cases mmapOk with
  | false =>
    have hs : (allocate_large_block node size false s).2 = s := rfl
    rw [hs]
    exact ⟨⟨h1, h2, h3, h4⟩, fun p hdr h => h, fun p _ => rfl, rfl, rfl⟩
  | true =>
    have hH : (allocate_large_block node size true s).2.headers =
        Function.update s.headers (Ptr.large s.next_large_id)
          (some { size := large_aligned_size size, size_class := -1,
                  numa_node := node }) := rfl
    have hC : (allocate_large_block node size true s).2.contents =
        Function.update s.contents (Ptr.large s.next_large_id) (fun _ => 0) := rfl
    have hA : (allocate_large_block node size true s).2.arenas = s.arenas := rfl
    have hP : (allocate_large_block node size true s).2.node_pools =
        s.node_pools := rfl
    have hN : (allocate_large_block node size true s).2.next_large_id =
        s.next_large_id + 1 := rfl
    have hfreshP : s.headers (Ptr.large s.next_large_id) = none :=
      h3 _ (Nat.le_refl _)
    have hmono : ∀ p hdr, s.headers p = some hdr →
        (allocate_large_block node size true s).2.headers p = some hdr := by
      intro p hdr hp
      rw [hH]
      have hne : p ≠ Ptr.large s.next_large_id := by
        intro he
        rw [he, hfreshP] at hp
        exact Option.noConfusion hp
      rw [Function.update_noteq hne]
      exact hp
    refine ⟨⟨?_, ?_, ?_, ?_⟩, hmono, ?_, hA, hP⟩
    · intro t arena i p ha hp
      rw [hA] at ha
      obtain ⟨hdr, hh, hc⟩ := h1 t arena i p ha hp
      exact ⟨hdr, hmono p hdr hh, hc⟩
    · intro nd off hdr hh
      rw [hH, Function.update_noteq (fun he => Ptr.noConfusion he)] at hh
      rw [hP]
      exact h2 nd off hdr hh
    · intro id hid
      rw [hN] at hid
      rw [hH, Function.update_noteq (a := Ptr.large id)
        (fun he => by have h5 := Ptr.large.inj he; omega)]
      exact h3 id (by omega)
    · intro p hdr hh
      rw [hH] at hh
      by_cases hpe : p = Ptr.large s.next_large_id
      · subst hpe
        rw [Function.update_same] at hh
        cases hh
        left
        rfl
      · rw [Function.update_noteq hpe] at hh
        exact h4 p hdr hh
    · intro p hfresh
      rw [hC, Function.update_noteq (hfresh s.next_large_id (Nat.le_refl _))]

theorem foldl_update_lookup_fn {α β γ : Type} [DecidableEq α] (l : List γ)
    (key : γ → α) (f : α → Option β) (v : Option β) (p : α) :
    (l.foldl (fun h i => Function.update h (key i) v) f) p =
      if ∃ i ∈ l, key i = p then v else f p := by
  induction l generalizing f with
  | nil => simp
  | cons k ks ih =>
    simp only [List.foldl_cons, ih]
    by_cases hex : ∃ i ∈ ks, key i = p
    · rw [if_pos hex, if_pos]
      obtain ⟨i, hi, hk⟩ := hex
      exact ⟨i, List.mem_cons_of_mem _ hi, hk⟩
    · rw [if_neg hex]
      by_cases hk : key k = p
      · rw [if_pos ⟨k, List.mem_cons_self _ _, hk⟩, ← hk, Function.update_same]
      · rw [if_neg, Function.update_noteq (fun he => hk he.symm)]
        rintro ⟨i, hi, hik⟩
        rcases List.mem_cons.mp hi with hik2 | hik2
        · exact hk (hik2 ▸ hik)
        · exact hex ⟨i, hik2, hik⟩

/-- `slow_path_alloc` preserves the invariant; additionally the resulting
arena's stacks stay coherent with the resulting headers, existing headers
and the contents of blocks that are not fresh mappings survive, and the
TLS table, home node and counters are untouched. -/
theorem inv_slow_path {arena : ThreadArena} {size : Nat} {sc : Int}
    {mmapOk : Bool} {s : AllocState} (hinv : Inv s)
    (harena : ∀ i p, p ∈ arena.free_lists i →
      ∃ hdr, s.headers p = some hdr ∧ hdr.size_class = (i : Int))
    (hsc : sc = -1 ∨ (0 ≤ sc ∧ sc < SIZE_CLASSES)) :
    Inv (slow_path_alloc arena size sc mmapOk s).2.2 ∧
    (∀ i p, p ∈ (slow_path_alloc arena size sc mmapOk s).2.1.free_lists i →
      ∃ hdr, (slow_path_alloc arena size sc mmapOk s).2.2.headers p = some hdr ∧
        hdr.size_class = (i : Int)) ∧
    (∀ p hdr, s.headers p = some hdr →
      (slow_path_alloc arena size sc mmapOk s).2.2.headers p = some hdr) ∧
    (∀ p, (∀ id, s.next_large_id ≤ id → p ≠ Ptr.large id) →
      (slow_path_alloc arena size sc mmapOk s).2.2.contents p = s.contents p) ∧
    (slow_path_alloc arena size sc mmapOk s).2.2.arenas = s.arenas ∧
    (slow_path_alloc arena size sc mmapOk s).2.1.numa_node = arena.numa_node ∧
    (slow_path_alloc arena size sc mmapOk s).2.1.stats_allocs = arena.stats_allocs ∧
    (slow_path_alloc arena size sc mmapOk s).2.1.stats_frees = arena.stats_frees := by
  by_cases hneg : sc < 0
  · obtain ⟨hI, hm, hc, hA, hPn⟩ :=
      inv_allocate_large_block arena.numa_node size mmapOk hinv
    have he : slow_path_alloc arena size sc mmapOk s =
        ((allocate_large_block arena.numa_node size mmapOk s).1, arena,
         (allocate_large_block arena.numa_node size mmapOk s).2) := by
      unfold slow_path_alloc
      rw [if_pos hneg]
    simp only [he]
    refine ⟨hI, ?_, hm, hc, hA, by trivial, by trivial, by trivial⟩
    intro i p hp
    obtain ⟨hdr, hh, hcl⟩ := harena i p hp
    exact ⟨hdr, hm p hdr hh, hcl⟩
  · have hsc0 : 0 ≤ sc := by omega
    have hscK : sc < SIZE_CLASSES := by
      rcases hsc with h | h
      · omega
      · exact h.2
    cases hpool : s.node_pools arena.numa_node with
    | none =>
      have he : slow_path_alloc arena size sc mmapOk s = (none, arena, s) := by
        unfold slow_path_alloc
        rw [if_neg hneg, hpool]
      simp only [he]
      refine ⟨hinv, harena, fun p hdr h => h, fun p _ => trivial, ?_, ?_, ?_, ?_⟩ <;>
        trivial
    | some pool =>
      by_cases hfit : pool.used +
          (SIZE_CLASS_SIZES.getD sc.toNat 0 + BLOCK_HEADER_SIZE) * REFILL_BATCH_SIZE >
          pool.total_size
      · have he : slow_path_alloc arena size sc mmapOk s = (none, arena, s) := by
          unfold slow_path_alloc
          rw [if_neg hneg, hpool]
          dsimp only
          rw [if_pos hfit]
        simp only [he]
        refine ⟨hinv, harena, fun p hdr h => h, fun p _ => trivial, ?_, ?_, ?_, ?_⟩ <;>
          trivial
      · obtain ⟨h1, h2, h3, h4⟩ := hinv
        have he := slow_path_alloc_small_eq arena size sc mmapOk s pool hsc0 hpool hfit
        have heH : (slow_path_alloc arena size sc mmapOk s).2.2.headers =
            (List.range REFILL_BATCH_SIZE).foldl
              (fun h i =>
                Function.update h
                  (batch_ptr arena.numa_node pool.used (SIZE_CLASS_SIZES.getD sc.toNat 0) i)
                  (some { size := SIZE_CLASS_SIZES.getD sc.toNat 0, size_class := sc,
                          numa_node := arena.numa_node }))
              s.headers := by
          rw [he]
        have heNP : (slow_path_alloc arena size sc mmapOk s).2.2.node_pools =
            Function.update s.node_pools arena.numa_node
              (some { pool with used := pool.used +
                (SIZE_CLASS_SIZES.getD sc.toNat 0 + BLOCK_HEADER_SIZE) *
                  REFILL_BATCH_SIZE }) := by
          rw [he]
        have heA : (slow_path_alloc arena size sc mmapOk s).2.2.arenas = s.arenas := by
          rw [he]
        have heC : (slow_path_alloc arena size sc mmapOk s).2.2.contents =
            s.contents := by
          rw [he]
        have heN : (slow_path_alloc arena size sc mmapOk s).2.2.next_large_id =
            s.next_large_id := by
          rw [he]
        have heFL : (slow_path_alloc arena size sc mmapOk s).2.1.free_lists =
            Function.update arena.free_lists sc.toNat
              (batch_chain arena.numa_node pool.used (SIZE_CLASS_SIZES.getD sc.toNat 0)
                (REFILL_BATCH_SIZE - 1)) := by
          rw [he]
        have hBHS : BLOCK_HEADER_SIZE = 16 := rfl
        have hK : SIZE_CLASSES = 8 := rfl
        have hB : REFILL_BATCH_SIZE = 64 := rfl
        have hscn : sc.toNat < SIZE_CLASSES := by omega
        have hbs16 : 16 ≤ SIZE_CLASS_SIZES.getD sc.toNat 0 :=
          size_class_sizes_lower sc.toNat hscn
        have hfresh : ∀ i, i < REFILL_BATCH_SIZE →
            s.headers (batch_ptr arena.numa_node pool.used
              (SIZE_CLASS_SIZES.getD sc.toNat 0) i) = none := by
          intro i hi
          cases hcase : s.headers (batch_ptr arena.numa_node pool.used
              (SIZE_CLASS_SIZES.getD sc.toNat 0) i) with
          | none => rfl
          | some hdr =>
            obtain ⟨pool2, hlk, hoff⟩ := h2 arena.numa_node
              (pool.used + i * (SIZE_CLASS_SIZES.getD sc.toNat 0 + BLOCK_HEADER_SIZE)
                + BLOCK_HEADER_SIZE) hdr hcase
            rw [hpool] at hlk
            cases hlk
            omega
        have hlookup : ∀ p : Ptr,
            ((List.range REFILL_BATCH_SIZE).foldl
              (fun h i =>
                Function.update h
                  (batch_ptr arena.numa_node pool.used (SIZE_CLASS_SIZES.getD sc.toNat 0) i)
                  (some { size := SIZE_CLASS_SIZES.getD sc.toNat 0, size_class := sc,
                          numa_node := arena.numa_node }))
              s.headers) p =
            if ∃ i ∈ List.range REFILL_BATCH_SIZE,
                batch_ptr arena.numa_node pool.used (SIZE_CLASS_SIZES.getD sc.toNat 0) i = p
            then some { size := SIZE_CLASS_SIZES.getD sc.toNat 0, size_class := sc,
                        numa_node := arena.numa_node }
            else s.headers p := by
          intro p
          exact foldl_update_lookup_fn _ _ _ _ _
        have hmono2 : ∀ (p : Ptr) hdr, s.headers p = some hdr →
            (slow_path_alloc arena size sc mmapOk s).2.2.headers p = some hdr := by
          intro p hdr hp
          rw [heH, hlookup, if_neg]
          · exact hp
          · rintro ⟨i, hir, hbp⟩
            rw [← hbp] at hp
            rw [hfresh i (List.mem_range.mp hir)] at hp
            exact Option.noConfusion hp
        have hmul : ∀ j bs2 : Nat, j < 64 → 16 ≤ bs2 →
            j * (bs2 + 16) + 16 < (bs2 + 16) * 64 := by
          intro j bs2 hj hbs
          have h63 : j * (bs2 + 16) ≤ 63 * (bs2 + 16) :=
            Nat.mul_le_mul_right _ (by omega)
          omega
        refine ⟨⟨?_, ?_, ?_, ?_⟩, ?_, hmono2, ?_, ?_, ?_, ?_, ?_⟩
        · intro t arena2 i p ha hp
          rw [heA] at ha
          obtain ⟨hdr, hh, hcl⟩ := h1 t arena2 i p ha hp
          exact ⟨hdr, hmono2 p hdr hh, hcl⟩
        · intro nd2 off hdr hh
          rw [heH, hlookup] at hh
          rw [heNP]
          by_cases hin : ∃ i ∈ List.range REFILL_BATCH_SIZE,
              batch_ptr arena.numa_node pool.used (SIZE_CLASS_SIZES.getD sc.toNat 0) i =
                Ptr.small nd2 off
          · rw [if_pos hin] at hh
            obtain ⟨j, hjr, hbp⟩ := hin
            have hj := List.mem_range.mp hjr
            unfold batch_ptr at hbp
            have hnd : arena.numa_node = nd2 := (Ptr.small.inj hbp).1
            have hoff : pool.used +
                j * (SIZE_CLASS_SIZES.getD sc.toNat 0 + BLOCK_HEADER_SIZE) +
                BLOCK_HEADER_SIZE = off := (Ptr.small.inj hbp).2
            refine ⟨{ pool with used := pool.used +
              (SIZE_CLASS_SIZES.getD sc.toNat 0 + BLOCK_HEADER_SIZE) *
                REFILL_BATCH_SIZE }, ?_, ?_⟩
            · rw [← hnd]
              exact Function.update_same _ _ _
            · have hmj := hmul j (SIZE_CLASS_SIZES.getD sc.toNat 0) (by omega) hbs16
              rw [hBHS] at hoff
              show off < pool.used +
                (SIZE_CLASS_SIZES.getD sc.toNat 0 + BLOCK_HEADER_SIZE) *
                  REFILL_BATCH_SIZE
              rw [hBHS, hB]
              omega
          · rw [if_neg hin] at hh
            obtain ⟨pool3, hlk, hoff⟩ := h2 nd2 off hdr hh
            by_cases hnd : nd2 = arena.numa_node
            · subst hnd
              rw [hpool] at hlk
              cases hlk
              refine ⟨{ pool with used := pool.used +
                (SIZE_CLASS_SIZES.getD sc.toNat 0 + BLOCK_HEADER_SIZE) *
                  REFILL_BATCH_SIZE }, Function.update_same _ _ _, ?_⟩
              show off < pool.used +
                (SIZE_CLASS_SIZES.getD sc.toNat 0 + BLOCK_HEADER_SIZE) *
                  REFILL_BATCH_SIZE
              omega
            · refine ⟨pool3, ?_, hoff⟩
              rw [Function.update_noteq hnd]
              exact hlk
        · intro id hid
          rw [heN] at hid
          rw [heH, hlookup, if_neg]
          · exact h3 id hid
          · rintro ⟨i, hir, hbp⟩
            exact Ptr.noConfusion hbp
        · intro p hdr hh
          rw [heH, hlookup] at hh
          by_cases hin : ∃ i ∈ List.range REFILL_BATCH_SIZE,
              batch_ptr arena.numa_node pool.used (SIZE_CLASS_SIZES.getD sc.toNat 0) i = p
          · rw [if_pos hin] at hh
            cases hh
            right
            exact ⟨hsc0, hscK⟩
          · rw [if_neg hin] at hh
            exact h4 p hdr hh
        · intro i p hp
          rw [heFL] at hp
          by_cases hi : i = sc.toNat
          · subst hi
            rw [Function.update_same] at hp
            obtain ⟨j, hj, hpj⟩ := mem_batch_chain.mp hp
            refine ⟨{ size := SIZE_CLASS_SIZES.getD sc.toNat 0, size_class := sc,
                      numa_node := arena.numa_node }, ?_, ?_⟩
            · rw [heH, hlookup, if_pos ⟨j, List.mem_range.mpr (by omega), hpj.symm⟩]
            · show sc = (sc.toNat : Int)
              rw [Int.toNat_of_nonneg hsc0]
          · rw [Function.update_noteq hi] at hp
            obtain ⟨hdr, hh, hcl⟩ := harena i p hp
            exact ⟨hdr, hmono2 p hdr hh, hcl⟩
        · intro p hp
          rw [heC]
        · rw [heA]
        · rw [he]
        · rw [he]
        · rw [he]

theorem inv_update_arenas_only {s : AllocState} {u : Nat → Option ThreadArena}
    (hinv : Inv s)
    (h1u : ∀ t arena i p, u t = some arena → p ∈ arena.free_lists i →
      ∃ hdr, s.headers p = some hdr ∧ hdr.size_class = (i : Int)) :
    Inv { s with arenas := u } := by
  obtain ⟨h1, h2, h3, h4⟩ := hinv
  exact ⟨h1u, h2, h3, h4⟩

theorem inv_numalloc_slow {t size : Nat} {sc : Int} {mmapOk : Bool}
    {s : AllocState} {arena : ThreadArena} (hinv : Inv s)
    (harena : ∀ i p, p ∈ arena.free_lists i →
      ∃ hdr, s.headers p = some hdr ∧ hdr.size_class = (i : Int))
    (hsc : sc = -1 ∨ (0 ≤ sc ∧ sc < SIZE_CLASSES)) :
    Inv (numalloc_slow t size sc mmapOk s arena).2 ∧
    (∀ p hdr, s.headers p = some hdr →
      (numalloc_slow t size sc mmapOk s arena).2.headers p = some hdr) ∧
    (∀ p, (∀ id, s.next_large_id ≤ id → p ≠ Ptr.large id) →
      (numalloc_slow t size sc mmapOk s arena).2.contents p = s.contents p) := by
  obtain ⟨hI, hFL, hmono, hcont, hA, hn1, hs1, hs2⟩ := inv_slow_path hinv harena hsc
  obtain ⟨i1, i2, i3, i4⟩ := hI
  refine ⟨⟨?_, i2, i3, i4⟩, hmono, hcont⟩
  intro t2 arena2 i p ha hp
  have haeq : (numalloc_slow t size sc mmapOk s arena).2.arenas =
      Function.update (slow_path_alloc arena size sc mmapOk s).2.2.arenas t
        (some (if (slow_path_alloc arena size sc mmapOk s).1.isSome then
          { (slow_path_alloc arena size sc mmapOk s).2.1 with stats_allocs :=
              (slow_path_alloc arena size sc mmapOk s).2.1.stats_allocs + 1 }
        else (slow_path_alloc arena size sc mmapOk s).2.1)) := rfl
  rw [haeq] at ha
  by_cases ht : t2 = t
  · subst ht
    rw [Function.update_same] at ha
    cases ha
    by_cases hc : (slow_path_alloc arena size sc mmapOk s).1.isSome
    · rw [if_pos hc] at hp
      exact hFL i p hp
    · rw [if_neg hc] at hp
      exact hFL i p hp
  · rw [Function.update_noteq ht] at ha
    exact i1 t2 arena2 i p ha hp

theorem inv_numalloc {t tnode size : Nat} {mmapOk : Bool} {s : AllocState}
    (hinv : Inv s) :
    Inv (numalloc t tnode size mmapOk s).2 ∧
    (∀ p hdr, s.headers p = some hdr →
      (numalloc t tnode size mmapOk s).2.headers p = some hdr) ∧
    (∀ p, (∀ id, s.next_large_id ≤ id → p ≠ Ptr.large id) →
      (numalloc t tnode size mmapOk s).2.contents p = s.contents p) := by
  by_cases hsz : size = 0
  · have he : numalloc t tnode size mmapOk s = (none, s) := by
      unfold numalloc
      rw [if_pos hsz]
    rw [he]
    exact ⟨hinv, fun p hdr h => h, fun p _ => rfl⟩
  · by_cases hinit : s.initialized = true
    · have hini2 : ¬¬s.initialized = true := by simp [hinit]
      cases hat : s.arenas t with
      | none =>
        have harena : ∀ i p, p ∈ (fresh_arena tnode).free_lists i →
            ∃ hdr, s.headers p = some hdr ∧ hdr.size_class = (i : Int) := by
          intro i p hp
          simp [fresh_arena] at hp
        by_cases hpos : 0 ≤ get_size_class size
        · have he : numalloc t tnode size mmapOk s =
              numalloc_slow t size (get_size_class size) mmapOk s
                (fresh_arena tnode) := by
            unfold numalloc
            rw [if_neg hsz, if_neg hini2, hat]
            dsimp only
            rw [if_pos hpos]
            dsimp only [fresh_arena]
          rw [he]
          exact inv_numalloc_slow hinv harena (get_size_class_range size)
        · have he : numalloc t tnode size mmapOk s =
              numalloc_slow t size (get_size_class size) mmapOk s
                (fresh_arena tnode) := by
            unfold numalloc
            rw [if_neg hsz, if_neg hini2, hat]
            dsimp only
            rw [if_neg hpos]
          rw [he]
          exact inv_numalloc_slow hinv harena (get_size_class_range size)
      | some a =>
        have harena : ∀ i p, p ∈ a.free_lists i →
            ∃ hdr, s.headers p = some hdr ∧ hdr.size_class = (i : Int) :=
          fun i p hp => hinv.1 t a i p hat hp
        by_cases hpos : 0 ≤ get_size_class size
        · cases hl : a.free_lists (get_size_class size).toNat with
          | nil =>
            have he : numalloc t tnode size mmapOk s =
                numalloc_slow t size (get_size_class size) mmapOk s a := by
              unfold numalloc
              rw [if_neg hsz, if_neg hini2, hat]
              dsimp only
              rw [if_pos hpos, hl]
            rw [he]
            exact inv_numalloc_slow hinv harena (get_size_class_range size)
          | cons block rest =>
            have he : numalloc t tnode size mmapOk s =
                (some block,
                 { s with arenas := (Function.update s.arenas t (some { a with
                     free_lists := (Function.update a.free_lists
                       (get_size_class size).toNat rest),
                     stats_allocs := a.stats_allocs + 1 })) }) := by
              unfold numalloc
              rw [if_neg hsz, if_neg hini2, hat]
              dsimp only
              rw [if_pos hpos, hl]
            rw [he]
            refine ⟨?_, fun p hdr h => h, fun p _ => rfl⟩
            refine inv_update_arenas_only hinv ?_
            intro t2 arena2 i p ha hp
            by_cases ht : t2 = t
            · subst ht
              rw [Function.update_same] at ha
              cases ha
              replace hp : p ∈ Function.update a.free_lists
                  (get_size_class size).toNat rest i := hp
              by_cases hi : i = (get_size_class size).toNat
              · subst hi
                rw [Function.update_same] at hp
                exact harena _ p (hl ▸ List.mem_cons_of_mem block hp)
              · rw [Function.update_noteq hi] at hp
                exact harena i p hp
            · rw [Function.update_noteq ht] at ha
              exact hinv.1 t2 arena2 i p ha hp
        · have he : numalloc t tnode size mmapOk s =
              numalloc_slow t size (get_size_class size) mmapOk s a := by
            unfold numalloc
            rw [if_neg hsz, if_neg hini2, hat]
            dsimp only
            rw [if_neg hpos]
          rw [he]
          exact inv_numalloc_slow hinv harena (get_size_class_range size)
    · have he : numalloc t tnode size mmapOk s = (none, s) := by
        unfold numalloc
        rw [if_neg hsz, if_pos]
        exact hinit
      rw [he]
      exact ⟨hinv, fun p hdr h => h, fun p _ => rfl⟩

theorem inv_numalloc_free {t tnode : Nat} {p : Ptr} {s : AllocState}
    (hinv : Inv s) : Inv (numalloc_free t tnode p s) := by
  obtain ⟨h1, h2, h3, h4⟩ := hinv
  cases hh : s.headers p with
  | none =>
    have he : numalloc_free t tnode p s = s := by
      unfold numalloc_free
      rw [hh]
    rw [he]
    exact ⟨h1, h2, h3, h4⟩
  | some hdr =>
    by_cases hneg : hdr.size_class < 0
    · have he : numalloc_free t tnode p s =
          { s with headers := (Function.update s.headers p none) } := by
        unfold numalloc_free free_large_block
        rw [hh]
        dsimp only
        rw [if_pos hneg]
      rw [he]
      refine ⟨?_, ?_, ?_, ?_⟩
      · intro t2 arena2 i q ha hq
        obtain ⟨hdrq, hhq, hclq⟩ := h1 t2 arena2 i q ha hq
        have hne : q ≠ p := by
          intro he2
          subst he2
          rw [hh] at hhq
          cases hhq
          omega
        refine ⟨hdrq, ?_, hclq⟩
        show Function.update s.headers p none q = some hdrq
        rw [Function.update_noteq hne]
        exact hhq
      · intro nd off hdrq hhq
        replace hhq : Function.update s.headers p none (Ptr.small nd off) =
            some hdrq := hhq
        by_cases hq : Ptr.small nd off = p
        · rw [hq, Function.update_same] at hhq
          exact Option.noConfusion hhq
        · rw [Function.update_noteq hq] at hhq
          exact h2 nd off hdrq hhq
      · intro id hid
        show Function.update s.headers p none (Ptr.large id) = none
        by_cases hq : Ptr.large id = p
        · rw [hq, Function.update_same]
        · rw [Function.update_noteq hq]
          exact h3 id hid
      · intro q hdrq hhq
        replace hhq : Function.update s.headers p none q = some hdrq := hhq
        by_cases hq : q = p
        · rw [hq, Function.update_same] at hhq
          exact Option.noConfusion hhq
        · rw [Function.update_noteq hq] at hhq
          exact h4 q hdrq hhq
    · have hcast : ((hdr.size_class.toNat : Nat) : Int) = hdr.size_class :=
        Int.toNat_of_nonneg (by omega)
      cases hat : s.arenas t with
      | none =>
        have he : numalloc_free t tnode p s =
            { s with arenas := (Function.update s.arenas t (some
              { fresh_arena tnode with
                free_lists := (Function.update (fresh_arena tnode).free_lists
                  hdr.size_class.toNat
                  (p :: (fresh_arena tnode).free_lists hdr.size_class.toNat)),
                stats_frees := (fresh_arena tnode).stats_frees + 1 })) } := by
          unfold numalloc_free
          rw [hh]
          dsimp only
          rw [if_neg hneg, hat]
        rw [he]
        refine inv_update_arenas_only ⟨h1, h2, h3, h4⟩ ?_
        intro t2 arena2 i q ha hq
        by_cases ht : t2 = t
        · subst ht
          rw [Function.update_same] at ha
          cases ha
          replace hq : q ∈ Function.update (fresh_arena tnode).free_lists
              hdr.size_class.toNat
              (p :: (fresh_arena tnode).free_lists hdr.size_class.toNat) i := hq
          by_cases hi : i = hdr.size_class.toNat
          · subst hi
            rw [Function.update_same] at hq
            rcases List.mem_cons.mp hq with hq2 | hq2
            · subst hq2
              exact ⟨hdr, hh, hcast.symm⟩
            · simp [fresh_arena] at hq2
          · rw [Function.update_noteq hi] at hq
            simp [fresh_arena] at hq
        · rw [Function.update_noteq ht] at ha
          exact h1 t2 arena2 i q ha hq
      | some a =>
        have he : numalloc_free t tnode p s =
            { s with arenas := (Function.update s.arenas t (some
              { a with
                free_lists := (Function.update a.free_lists hdr.size_class.toNat
                  (p :: a.free_lists hdr.size_class.toNat)),
                stats_frees := a.stats_frees + 1 })) } := by
          unfold numalloc_free
          rw [hh]
          dsimp only
          rw [if_neg hneg, hat]
        rw [he]
        refine inv_update_arenas_only ⟨h1, h2, h3, h4⟩ ?_
        intro t2 arena2 i q ha hq
        by_cases ht : t2 = t
        · subst ht
          rw [Function.update_same] at ha
          cases ha
          replace hq : q ∈ Function.update a.free_lists hdr.size_class.toNat
              (p :: a.free_lists hdr.size_class.toNat) i := hq
          by_cases hi : i = hdr.size_class.toNat
          · subst hi
            rw [Function.update_same] at hq
            rcases List.mem_cons.mp hq with hq2 | hq2
            · subst hq2
              exact ⟨hdr, hh, hcast.symm⟩
            · exact h1 _ a _ q hat hq2
          · rw [Function.update_noteq hi] at hq
            exact h1 _ a i q hat hq
        · rw [Function.update_noteq ht] at ha
          exact h1 t2 arena2 i q ha hq

theorem inv_numalloc_calloc {t tnode num size : Nat} {mmapOk : Bool}
    {s : AllocState} (hinv : Inv s) :
    Inv (numalloc_calloc t tnode num size mmapOk s).2 := by
  unfold numalloc_calloc
  by_cases h0 : num = 0 ∨ size = 0
  · rw [if_pos h0]
    exact hinv
  · rw [if_neg h0]
    dsimp only
    by_cases hchk : size ≠ num * size % U64 / num
    · rw [if_pos hchk]
      exact hinv
    · rw [if_neg hchk]
      cases hr : (numalloc t tnode (num * size % U64) mmapOk s).1 with
      | none => exact (inv_numalloc hinv).1
      | some q => exact (inv_numalloc hinv).1

theorem inv_numalloc_realloc {t tnode : Nat} {p : Option Ptr} {size : Nat}
    {mmapOk : Bool} {s : AllocState} (hinv : Inv s) :
    Inv (numalloc_realloc t tnode p size mmapOk s).2 := by
  cases p with
  | none => exact (inv_numalloc hinv).1
  | some ptr =>
    by_cases hsz : size = 0
    · subst hsz
      exact inv_numalloc_free hinv
    · unfold numalloc_realloc
      dsimp only
      rw [if_neg hsz]
      cases hh : s.headers ptr with
      | none => exact hinv
      | some hdr =>
        dsimp only
        by_cases hle : size ≤ (if 0 ≤ hdr.size_class then
            SIZE_CLASS_SIZES.getD hdr.size_class.toNat 0 else hdr.size)
        · rw [if_pos hle]
          exact hinv
        · rw [if_neg hle]
          cases hr : (numalloc t tnode size mmapOk s).1 with
          | none => exact (inv_numalloc hinv).1
          | some q => exact inv_numalloc_free (inv_numalloc hinv).1

theorem inv_step {s s2 : AllocState} (hinv : Inv s) (h : Step s s2) : Inv s2 := by
  cases h with
  | alloc t tnode size mmapOk => exact (inv_numalloc hinv).1
  | free t tnode p => exact inv_numalloc_free hinv
  | calloc t tnode num size mmapOk => exact inv_numalloc_calloc hinv
  | realloc t tnode p size mmapOk => exact inv_numalloc_realloc hinv

theorem reachable_inv {s : AllocState} (h : Reachable s) : Inv s := by
  induction h with
  | init num_nodes pool_size => exact inv_initialState num_nodes pool_size
  | step s s2 h hs ih => exact inv_step ih hs

theorem numalloc_free_contents (t tnode : Nat) (p : Ptr) (s : AllocState) :
    (numalloc_free t tnode p s).contents = s.contents := by
  unfold numalloc_free
  cases hh : s.headers p with
  | none => rfl
  | some hdr =>
    dsimp only
    by_cases hneg : hdr.size_class < 0
    · rw [if_pos hneg]
      unfold free_large_block
      rw [hh]
    · rw [if_neg hneg]

theorem slow_path_stats (arena : ThreadArena) (size : Nat) (sc : Int)
    (mmapOk : Bool) (s : AllocState) :
    (slow_path_alloc arena size sc mmapOk s).2.1.stats_allocs =
      arena.stats_allocs ∧
    (slow_path_alloc arena size sc mmapOk s).2.1.stats_frees =
      arena.stats_frees := by
  unfold slow_path_alloc
  by_cases hneg : sc < 0
  · rw [if_pos hneg]
    unfold allocate_large_block
    cases mmapOk <;> exact ⟨rfl, rfl⟩
  · rw [if_neg hneg]
    cases hpool : s.node_pools arena.numa_node with
    | none => exact ⟨rfl, rfl⟩
    | some pool =>
      dsimp only
      by_cases hfit : pool.used +
          (SIZE_CLASS_SIZES.getD sc.toNat 0 + BLOCK_HEADER_SIZE) *
            REFILL_BATCH_SIZE > pool.total_size
      · rw [if_pos hfit]
        exact ⟨rfl, rfl⟩
      · have h64 : batch_chain arena.numa_node pool.used
            (SIZE_CLASS_SIZES.getD sc.toNat 0) REFILL_BATCH_SIZE =
            batch_ptr arena.numa_node pool.used (SIZE_CLASS_SIZES.getD sc.toNat 0)
              (REFILL_BATCH_SIZE - 1) ::
            batch_chain arena.numa_node pool.used (SIZE_CLASS_SIZES.getD sc.toNat 0)
              (REFILL_BATCH_SIZE - 1) :=
          batch_chain_succ _ _ _ 63
        rw [if_neg hfit, h64]
        exact ⟨rfl, rfl⟩

/-! ### The claims -/

/-- Claim C7: for every request size `n` with `1 ≤ n ≤ 2048`,
`get_size_class` returns the smallest index `i` with `sᵢ ≥ n` over the
ladder 16, 32, 64, 128, 256, 512, 1024, 2048; a request of exactly `sᵢ`
goes to class `i`, a request of `sᵢ + 1` goes to class `i + 1` (large when
`i` is the last class), and every `n > 2048` is classified large (`-1`). -/
theorem size_class_mapping_spec :
    (∀ n : Nat, 1 ≤ n → n ≤ 2048 →
      ∃ i : Nat, i < SIZE_CLASSES ∧ get_size_class n = (i : Int) ∧
        n ≤ SIZE_CLASS_SIZES.getD i 0 ∧
        ∀ j : Nat, j < i → SIZE_CLASS_SIZES.getD j 0 < n) ∧
    (∀ i : Nat, i < SIZE_CLASSES →
      get_size_class (SIZE_CLASS_SIZES.getD i 0) = (i : Int)) ∧
    (∀ i : Nat, i + 1 < SIZE_CLASSES →
      get_size_class (SIZE_CLASS_SIZES.getD i 0 + 1) = ((i + 1 : Nat) : Int)) ∧
    get_size_class (SIZE_CLASS_SIZES.getD (SIZE_CLASSES - 1) 0 + 1) = -1 ∧
    (∀ n : Nat, 2048 < n → get_size_class n = -1) := by
  have hsmall : ∀ n : Nat, 1 ≤ n → n ≤ 2048 →
      ∃ i, i < SIZE_CLASSES ∧ get_size_class n = (i : Int) ∧
        n ≤ SIZE_CLASS_SIZES.getD i 0 ∧
        ∀ j : Nat, j < i → SIZE_CLASS_SIZES.getD j 0 < n := by
    intro n h1 h2
    have hgsc := get_size_class_eq n
    by_cases c0 : n ≤ 16
    · rw [if_pos c0] at hgsc
      refine ⟨0, by decide, hgsc, by simpa [SIZE_CLASS_SIZES] using c0, ?_⟩
      intro j hj
      omega
    · rw [if_neg c0] at hgsc
      by_cases c1 : n ≤ 32
      · rw [if_pos c1] at hgsc
        refine ⟨1, by decide, hgsc, by simpa [SIZE_CLASS_SIZES] using c1, ?_⟩
        intro j hj
        interval_cases j <;> simp [SIZE_CLASS_SIZES] <;> omega
      · rw [if_neg c1] at hgsc
        by_cases c2 : n ≤ 64
        · rw [if_pos c2] at hgsc
          refine ⟨2, by decide, hgsc, by simpa [SIZE_CLASS_SIZES] using c2, ?_⟩
          intro j hj
          interval_cases j <;> simp [SIZE_CLASS_SIZES] <;> omega
        · rw [if_neg c2] at hgsc
          by_cases c3 : n ≤ 128
          · rw [if_pos c3] at hgsc
            refine ⟨3, by decide, hgsc, by simpa [SIZE_CLASS_SIZES] using c3, ?_⟩
            intro j hj
            interval_cases j <;> simp [SIZE_CLASS_SIZES] <;> omega
          · rw [if_neg c3] at hgsc
            by_cases c4 : n ≤ 256
            · rw [if_pos c4] at hgsc
              refine ⟨4, by decide, hgsc, by simpa [SIZE_CLASS_SIZES] using c4, ?_⟩
              intro j hj
              interval_cases j <;> simp [SIZE_CLASS_SIZES] <;> omega
            · rw [if_neg c4] at hgsc
              by_cases c5 : n ≤ 512
              · rw [if_pos c5] at hgsc
                refine ⟨5, by decide, hgsc, by simpa [SIZE_CLASS_SIZES] using c5,
                  ?_⟩
                intro j hj
                interval_cases j <;> simp [SIZE_CLASS_SIZES] <;> omega
              · rw [if_neg c5] at hgsc
                by_cases c6 : n ≤ 1024
                · rw [if_pos c6] at hgsc
                  refine ⟨6, by decide, hgsc,
                    by simpa [SIZE_CLASS_SIZES] using c6, ?_⟩
                  intro j hj
                  interval_cases j <;> simp [SIZE_CLASS_SIZES] <;> omega
                · rw [if_neg c6] at hgsc
                  rw [if_pos h2] at hgsc
                  refine ⟨7, by decide, hgsc,
                    by simpa [SIZE_CLASS_SIZES] using h2, ?_⟩
                  intro j hj
                  interval_cases j <;> simp [SIZE_CLASS_SIZES] <;> omega
  refine ⟨hsmall, ?_, ?_, by decide, ?_⟩
  · intro i hi
    have hi8 : i < 8 := hi
    interval_cases i <;> decide
  · intro i hi
    have hi8 : i < 7 := by
      have h8 : SIZE_CLASSES = 8 := rfl
      omega
    interval_cases i <;> decide
  intro n hn
  rw [get_size_class_eq]
  repeat rw [if_neg (by omega : ¬ n ≤ _)]

/-- Witness for C7 at the concrete request size 100 (class 3, size 128). -/
theorem size_class_mapping_spec_witness :
    (1 ≤ 100 ∧ (100 : Nat) ≤ 2048) ∧
    ∃ i : Nat, i < SIZE_CLASSES ∧ get_size_class 100 = (i : Int) ∧
      100 ≤ SIZE_CLASS_SIZES.getD i 0 ∧
      ∀ j : Nat, j < i → SIZE_CLASS_SIZES.getD j 0 < 100 :=
  ⟨⟨by decide, by decide⟩, size_class_mapping_spec.1 100 (by decide) (by decide)⟩

/-- Claim C9: under the precondition that the discovered topology reports at
most `MAX_NUMA_NODES = 8` nodes, every index the `numalloc_init` loop
writes into `g_node_pools` is below 8; the loop itself performs no check of
`num_nodes` against the capacity, so with 9 reported nodes it also writes
index 8 — the precondition is required for in-bounds indexing. -/
theorem init_pool_writes_bounded :
    (∀ num_nodes : Nat, num_nodes ≤ MAX_NUMA_NODES →
      ∀ i ∈ numalloc_init_pool_indices num_nodes, i < MAX_NUMA_NODES) ∧
    MAX_NUMA_NODES ∈ numalloc_init_pool_indices (MAX_NUMA_NODES + 1) := by
  constructor
  · intro N hN i hi
    have hlt := List.mem_range.mp hi
    unfold MAX_NUMA_NODES at *
    omega
  · exact List.mem_range.mpr (by omega)

/-- Witness for C9 at 8 discovered nodes and slot 7. -/
theorem init_pool_writes_bounded_witness :
    7 ∈ numalloc_init_pool_indices 8 ∧ 7 < MAX_NUMA_NODES :=
  ⟨by decide, init_pool_writes_bounded.1 8 (by decide) 7 (by decide)⟩

/-- Claim C10: for every size, calling `numalloc` on a state that is not
initialised — before `numalloc_init`, or on the state `numalloc_cleanup`
leaves behind — returns null and leaves the whole allocator state
unchanged. -/
theorem numalloc_uninitialized_noop (t tnode size : Nat) (mmapOk : Bool)
    (s : AllocState) :
    (s.initialized = false → numalloc t tnode size mmapOk s = (none, s)) ∧
    numalloc t tnode size mmapOk (numalloc_cleanup s) =
      (none, numalloc_cleanup s) := by
  have huninit : ∀ s2 : AllocState, s2.initialized = false →
      numalloc t tnode size mmapOk s2 = (none, s2) := by
    intro s2 h
    unfold numalloc
    by_cases hsz : size = 0
    · rw [if_pos hsz]
    · rw [if_neg hsz, if_pos (by simp [h])]
  refine ⟨huninit s, huninit _ ?_⟩
  unfold numalloc_cleanup
  by_cases hi : s.initialized = true
  · rw [if_neg (by simp [hi])]
  · rw [if_pos (by simpa using hi)]
    simpa using hi

/-- The empty, never-initialised allocator state. -/
def uninit_state : AllocState :=
  { initialized := false, node_pools := fun _ => none, arenas := fun _ => none,
    headers := fun _ => none, contents := fun _ _ => 0, next_large_id := 0 }

/-- Witness for C10 on the empty uninitialised state. -/
theorem numalloc_uninitialized_noop_witness :
    uninit_state.initialized = false ∧
    numalloc 0 0 64 true uninit_state = (none, uninit_state) :=
  ⟨rfl, (numalloc_uninitialized_noop 0 0 64 true uninit_state).1 rfl⟩

/-- Claim C1 (amended): for a large request of `n > 2048` bytes the code
computes `m = n + header_size` (header is 16 bytes) and rounds `m` up to a
multiple of the 2 MiB huge-page size exactly when `m ≥ huge_page_size`;
when `m < huge_page_size` the mapping length is `m` itself, with no
rounding to the system page size.  The header records exactly this length,
`free_large_block` passes exactly it to `munmap`, and
`mapping_size mod page_size = 0` is guaranteed only in the huge-rounded
case. -/
theorem large_block_mapping_size (node n : Nat) (s : AllocState)
    (hn : 2048 < n) (hbound : n < 2 ^ 62) :
    (n + BLOCK_HEADER_SIZE < HUGE_PAGE_SIZE →
      large_aligned_size n = n + BLOCK_HEADER_SIZE) ∧
    (HUGE_PAGE_SIZE ≤ n + BLOCK_HEADER_SIZE →
      large_aligned_size n =
        (n + BLOCK_HEADER_SIZE + (HUGE_PAGE_SIZE - 1)) / HUGE_PAGE_SIZE *
          HUGE_PAGE_SIZE ∧
      large_aligned_size n % PAGE_SIZE = 0) ∧
    (allocate_large_block node n true s).2.headers (Ptr.large s.next_large_id) =
      some { size := large_aligned_size n, size_class := -1, numa_node := node } ∧
    (allocate_large_block node n true s).1 = some (Ptr.large s.next_large_id) ∧
    (free_large_block (Ptr.large s.next_large_id)
      (allocate_large_block node n true s).2).1 = large_aligned_size n := by
  have hHP : HUGE_PAGE_SIZE = 2 ^ 21 := by norm_num [HUGE_PAGE_SIZE]
  have hBH : BLOCK_HEADER_SIZE = 16 := rfl
  have hPS : PAGE_SIZE = 4096 := rfl
  have hH : (allocate_large_block node n true s).2.headers =
      Function.update s.headers (Ptr.large s.next_large_id)
        (some { size := large_aligned_size n, size_class := -1,
                numa_node := node }) := rfl
  refine ⟨?_, ?_, ?_, rfl, ?_⟩
  · intro hlt
    unfold large_aligned_size
    rw [if_neg (by omega)]
  · intro hge
    have heq : large_aligned_size n =
        (n + BLOCK_HEADER_SIZE + (HUGE_PAGE_SIZE - 1)) / HUGE_PAGE_SIZE *
          HUGE_PAGE_SIZE := by
      unfold large_aligned_size
      rw [if_pos hge, hHP]
      exact align_up_pow2 (by omega) (by unfold U64; omega)
    refine ⟨heq, ?_⟩
    rw [heq, hPS, hHP]
    apply Nat.mod_eq_zero_of_dvd
    exact Dvd.dvd.mul_left ⟨2 ^ 9, by norm_num⟩ _
  · rw [hH, Function.update_same]
  · unfold free_large_block
    rw [hH, Function.update_same]

/-- Witness for C1 (amended) at `n = 3 MiB`, exercising the huge-rounded
branch. -/
theorem large_block_mapping_size_witness :
    (2048 < 3145728 ∧ (3145728 : Nat) < 2 ^ 62) ∧
    (HUGE_PAGE_SIZE ≤ 3145728 + BLOCK_HEADER_SIZE →
      large_aligned_size 3145728 =
        (3145728 + BLOCK_HEADER_SIZE + (HUGE_PAGE_SIZE - 1)) / HUGE_PAGE_SIZE *
          HUGE_PAGE_SIZE ∧
      large_aligned_size 3145728 % PAGE_SIZE = 0) :=
  ⟨⟨by decide, by decide⟩,
    (large_block_mapping_size 0 3145728 uninit_state (by decide) (by decide)).2.1⟩

/-- Claim C1 counterexample: the claim also demands page rounding below the
huge threshold, but for `n = 2049` (a large request) the recorded mapping
length — also the length later handed to `munmap` — is `2065 = 2049 + 16`,
which is not a multiple of the 4096-byte page size. -/
theorem large_block_not_page_rounded :
    large_aligned_size 2049 = 2065 ∧
    2065 % PAGE_SIZE ≠ 0 ∧
    (free_large_block (Ptr.large 0)
      (allocate_large_block 0 2049 true (initialState 1 4096)).2).1 = 2065 := by
  refine ⟨by decide, by decide, by decide⟩

/-- Claim C6: `numalloc_calloc(num, size)` returns null when `num` or
`size` is zero, returns null whenever the product `num * size` overflows
`size_t`, and whenever it returns a buffer the first `num * size` bytes of
that buffer are all zero. -/
theorem calloc_spec (t tnode num size : Nat) (mmapOk : Bool) (s : AllocState) :
    (num = 0 ∨ size = 0 → numalloc_calloc t tnode num size mmapOk s = (none, s)) ∧
    (U64 ≤ num * size → (numalloc_calloc t tnode num size mmapOk s).1 = none) ∧
    (∀ p, (numalloc_calloc t tnode num size mmapOk s).1 = some p →
      ∀ off, off < num * size →
        (numalloc_calloc t tnode num size mmapOk s).2.contents p off = 0) := by
  have hUpos : 0 < U64 := by unfold U64; positivity
  have hover : U64 ≤ num * size → num ≠ 0 → size ≠ num * size % U64 / num := by
    intro hov hnz
    have h1 : num * size % U64 < U64 := Nat.mod_lt _ hUpos
    have h2 : num * size % U64 < size * num := by
      calc num * size % U64 < U64 := h1
        _ ≤ num * size := hov
        _ = size * num := Nat.mul_comm _ _
    have h3 := (Nat.div_lt_iff_lt_mul (Nat.pos_of_ne_zero hnz)).mpr h2
    omega
  refine ⟨?_, ?_, ?_⟩
  · intro h0
    unfold numalloc_calloc
    rw [if_pos h0]
  · intro hov
    unfold numalloc_calloc
    by_cases h0 : num = 0 ∨ size = 0
    · rw [if_pos h0]
    · rw [if_neg h0]
      dsimp only
      rw [if_pos (hover hov (fun hc => h0 (Or.inl hc)))]
  · intro p hp off hoff
    unfold numalloc_calloc at hp ⊢
    by_cases h0 : num = 0 ∨ size = 0
    · rw [if_pos h0] at hp
      exact Option.noConfusion hp
    · rw [if_neg h0] at hp ⊢
      dsimp only at hp ⊢
      by_cases hchk : size ≠ num * size % U64 / num
      · rw [if_pos hchk] at hp
        exact Option.noConfusion hp
      · rw [if_neg hchk] at hp ⊢
        have hnov : num * size < U64 := by
          by_contra hc
          exact hchk (hover (by omega) (fun hz => h0 (Or.inl hz)))
        have hmod : num * size % U64 = num * size := Nat.mod_eq_of_lt hnov
        cases hr : (numalloc t tnode (num * size % U64) mmapOk s).1 with
        | none =>
          rw [hr] at hp
          exact Option.noConfusion (show (none : Option Ptr) = some p from hp)
        | some q =>
          rw [hr] at hp
          have h5 : q = p := by
            have hp2 : some q = some p := hp
            injection hp2
          subst h5
          show Function.update
              (numalloc t tnode (num * size % U64) mmapOk s).2.contents q
              (fun o => if o < num * size % U64 then 0
                else (numalloc t tnode (num * size % U64) mmapOk s).2.contents q o)
              q off = 0
          rw [Function.update_same]
          rw [if_pos (by omega)]

/-- Witness for C6: a 4 × 8 byte zeroed allocation on a fresh allocator. -/
theorem calloc_spec_witness :
    (numalloc_calloc 0 0 4 8 true (initialState 1 4096)).1 =
      some (Ptr.small 0 3040) ∧
    (0 : Nat) < 4 * 8 ∧
    (numalloc_calloc 0 0 4 8 true (initialState 1 4096)).2.contents
      (Ptr.small 0 3040) 0 = 0 :=
  ⟨by decide, by decide,
    (calloc_spec 0 0 4 8 true (initialState 1 4096)).2.2 (Ptr.small 0 3040)
      (by decide) 0 (by decide)⟩

/-- Claim C5: on a small-class miss for class `i`, `slow_path_alloc` takes
one contiguous batch of `B = 64` blocks from the home node's pool
(advancing the watermark by exactly 64 strides), writes each block's header
with size `sᵢ`, class `i` and the cache's home node, returns exactly block
63, and installs exactly the remaining 63 blocks as the new class-`i`
stack; the returned block is not also on the installed stack. -/
theorem slow_path_refill_spec (arena : ThreadArena) (size : Nat) (i : Nat)
    (mmapOk : Bool) (s : AllocState) (pool : NodePool)
    (hi : i < SIZE_CLASSES)
    (hpool : s.node_pools arena.numa_node = some pool)
    (hfit : pool.used + (SIZE_CLASS_SIZES.getD i 0 + BLOCK_HEADER_SIZE) *
      REFILL_BATCH_SIZE ≤ pool.total_size) :
    (slow_path_alloc arena size (i : Int) mmapOk s).1 =
      some (batch_ptr arena.numa_node pool.used (SIZE_CLASS_SIZES.getD i 0) 63) ∧
    (slow_path_alloc arena size (i : Int) mmapOk s).2.1.free_lists i =
      batch_chain arena.numa_node pool.used (SIZE_CLASS_SIZES.getD i 0) 63 ∧
    ((slow_path_alloc arena size (i : Int) mmapOk s).2.1.free_lists i).length =
      63 ∧
    batch_ptr arena.numa_node pool.used (SIZE_CLASS_SIZES.getD i 0) 63 ∉
      (slow_path_alloc arena size (i : Int) mmapOk s).2.1.free_lists i ∧
    (∀ j, j < REFILL_BATCH_SIZE →
      (slow_path_alloc arena size (i : Int) mmapOk s).2.2.headers
          (batch_ptr arena.numa_node pool.used (SIZE_CLASS_SIZES.getD i 0) j) =
        some { size := SIZE_CLASS_SIZES.getD i 0, size_class := (i : Int),
               numa_node := arena.numa_node }) ∧
    (slow_path_alloc arena size (i : Int) mmapOk s).2.2.node_pools
        arena.numa_node =
      some { pool with used := pool.used +
        (SIZE_CLASS_SIZES.getD i 0 + BLOCK_HEADER_SIZE) * REFILL_BATCH_SIZE } := by
  have htn : ((i : Int)).toNat = i := Int.toNat_natCast i
  have hfit2 : ¬(pool.used +
      (SIZE_CLASS_SIZES.getD ((i : Int)).toNat 0 + BLOCK_HEADER_SIZE) *
        REFILL_BATCH_SIZE > pool.total_size) := by
    rw [htn]
    omega
  have he := slow_path_alloc_small_eq arena size (i : Int) mmapOk s pool
    (by positivity) hpool hfit2
  rw [htn] at he
  have heFL : (slow_path_alloc arena size (i : Int) mmapOk s).2.1.free_lists =
      Function.update arena.free_lists i
        (batch_chain arena.numa_node pool.used (SIZE_CLASS_SIZES.getD i 0)
          (REFILL_BATCH_SIZE - 1)) := by
    rw [he]
  have heH : (slow_path_alloc arena size (i : Int) mmapOk s).2.2.headers =
      (List.range REFILL_BATCH_SIZE).foldl
        (fun h j =>
          Function.update h
            (batch_ptr arena.numa_node pool.used (SIZE_CLASS_SIZES.getD i 0) j)
            (some { size := SIZE_CLASS_SIZES.getD i 0, size_class := (i : Int),
                    numa_node := arena.numa_node }))
        s.headers := by
    rw [he]
  have heNP : (slow_path_alloc arena size (i : Int) mmapOk s).2.2.node_pools =
      Function.update s.node_pools arena.numa_node
        (some { pool with used := pool.used +
          (SIZE_CLASS_SIZES.getD i 0 + BLOCK_HEADER_SIZE) *
            REFILL_BATCH_SIZE }) := by
    rw [he]
  have hfl : (slow_path_alloc arena size (i : Int) mmapOk s).2.1.free_lists i =
      batch_chain arena.numa_node pool.used (SIZE_CLASS_SIZES.getD i 0) 63 := by
    rw [heFL, Function.update_same]
    rfl
  refine ⟨?_, hfl, ?_, ?_, ?_, ?_⟩
  · rw [he]
    rfl
  · rw [hfl]
    exact batch_chain_length _ _ _ 63
  · rw [hfl]
    intro hmem
    obtain ⟨j, hj, hpj⟩ := mem_batch_chain.mp hmem
    have := batch_ptr_inj hpj.symm
    omega
  · intro j hj
    rw [heH, foldl_update_lookup_fn,
      if_pos ⟨j, List.mem_range.mpr hj, rfl⟩]
  · rw [heNP, Function.update_same]

/-- Witness for C5: the first class-0 refill on a fresh single-node
allocator. -/
theorem slow_path_refill_spec_witness :
    ((0 : Nat) < SIZE_CLASSES ∧
      (initialState 1 4096).node_pools (fresh_arena 0).numa_node =
        some { node_id := 0, total_size := 4096, used := 0 }) ∧
    ((slow_path_alloc (fresh_arena 0) 16 ((0 : Nat) : Int) true
        (initialState 1 4096)).2.1.free_lists 0).length = 63 :=
  ⟨⟨by decide, by decide⟩,
    (slow_path_refill_spec (fresh_arena 0) 16 0 true (initialState 1 4096)
      { node_id := 0, total_size := 4096, used := 0 } (by decide) (by decide)
      (by decide)).2.2.1⟩

theorem thread_allocs_eq (s : AllocState) (t : Nat) (a : ThreadArena)
    (h : s.arenas t = some a) : thread_allocs s t = a.stats_allocs := by
  unfold thread_allocs
  rw [h]

theorem thread_allocs_none (s : AllocState) (t : Nat)
    (h : s.arenas t = none) : thread_allocs s t = 0 := by
  unfold thread_allocs
  rw [h]

theorem thread_frees_eq (s : AllocState) (t : Nat) (a : ThreadArena)
    (h : s.arenas t = some a) : thread_frees s t = a.stats_frees := by
  unfold thread_frees
  rw [h]

theorem thread_frees_none (s : AllocState) (t : Nat)
    (h : s.arenas t = none) : thread_frees s t = 0 := by
  unfold thread_frees
  rw [h]

/-- Claim C8 (amended): `stats_allocs` is incremented on every successful
allocation (small or large) and `stats_frees` on every successful small
free, and `numalloc_get_thread_stats` reports the calling thread's
counters, `(0, 0)` when it has no cache; a large free, however, returns
before the counter code and leaves every thread's counters (indeed the
whole TLS table) unchanged. -/
theorem thread_counters_amended (t tnode size : Nat) (mmapOk : Bool)
    (s : AllocState) (p : Ptr) :
    ((numalloc t tnode size mmapOk s).1.isSome = true →
      thread_allocs (numalloc t tnode size mmapOk s).2 t =
        thread_allocs s t + 1) ∧
    (∀ hdr, s.headers p = some hdr → 0 ≤ hdr.size_class →
      thread_frees (numalloc_free t tnode p s) t = thread_frees s t + 1) ∧
    (∀ hdr, s.headers p = some hdr → hdr.size_class < 0 →
      (numalloc_free t tnode p s).arenas = s.arenas) ∧
    numalloc_get_thread_stats t s = (thread_allocs s t, thread_frees s t) ∧
    (s.arenas t = none → numalloc_get_thread_stats t s = (0, 0)) := by
  have hslow : ∀ arena0 : ThreadArena,
      (numalloc_slow t size (get_size_class size) mmapOk s arena0).1.isSome =
        true →
      thread_allocs
          (numalloc_slow t size (get_size_class size) mmapOk s arena0).2 t =
        arena0.stats_allocs + 1 := by
    intro a0 hS2
    have hS3 : (slow_path_alloc a0 size (get_size_class size) mmapOk s).1.isSome =
        true := hS2
    have hup : (numalloc_slow t size (get_size_class size) mmapOk s a0).2.arenas t =
        some (if (slow_path_alloc a0 size (get_size_class size) mmapOk s).1.isSome
          then { (slow_path_alloc a0 size (get_size_class size) mmapOk s).2.1 with
                 stats_allocs := (slow_path_alloc a0 size (get_size_class size)
                   mmapOk s).2.1.stats_allocs + 1 }
          else (slow_path_alloc a0 size (get_size_class size) mmapOk s).2.1) :=
      Function.update_same _ _ _
    rw [thread_allocs_eq _ t _ hup, if_pos hS3]
    have hst := (slow_path_stats a0 size (get_size_class size) mmapOk s).1
    show (slow_path_alloc a0 size (get_size_class size) mmapOk s).2.1.stats_allocs
      + 1 = a0.stats_allocs + 1
    omega
  refine ⟨?_, ?_, ?_, ?_, ?_⟩
  · intro hS
    by_cases hsz : size = 0
    · have he : numalloc t tnode size mmapOk s = (none, s) := by
        unfold numalloc
        rw [if_pos hsz]
      rw [he] at hS
      exact Bool.noConfusion hS
    · by_cases hinit : s.initialized = true
      · have hini2 : ¬¬s.initialized = true := by simp [hinit]
        cases hat : s.arenas t with
        | none =>
          have he : numalloc t tnode size mmapOk s =
              numalloc_slow t size (get_size_class size) mmapOk s
                (fresh_arena tnode) := by
            unfold numalloc
            rw [if_neg hsz, if_neg hini2, hat]
            dsimp only
            by_cases hpos : 0 ≤ get_size_class size
            · rw [if_pos hpos]
              dsimp only [fresh_arena]
            · rw [if_neg hpos]
          rw [he] at hS ⊢
          rw [hslow (fresh_arena tnode) hS, thread_allocs_none s t hat]
          rfl
        | some a =>
          have harl : thread_allocs s t = a.stats_allocs :=
            thread_allocs_eq s t a hat
          by_cases hpos : 0 ≤ get_size_class size
          · cases hl : a.free_lists (get_size_class size).toNat with
            | nil =>
              have he : numalloc t tnode size mmapOk s =
                  numalloc_slow t size (get_size_class size) mmapOk s a := by
                unfold numalloc
                rw [if_neg hsz, if_neg hini2, hat]
                dsimp only
                rw [if_pos hpos, hl]
              rw [he] at hS ⊢
              rw [hslow a hS, harl]
            | cons block rest =>
              have he : numalloc t tnode size mmapOk s =
                  (some block,
                   { s with arenas := (Function.update s.arenas t (some { a with
                       free_lists := (Function.update a.free_lists
                         (get_size_class size).toNat rest),
                       stats_allocs := a.stats_allocs + 1 })) }) := by
                unfold numalloc
                rw [if_neg hsz, if_neg hini2, hat]
                dsimp only
                rw [if_pos hpos, hl]
              rw [he]
              rw [thread_allocs_eq _ t _ (Function.update_same _ _ _), harl]
          · have he : numalloc t tnode size mmapOk s =
                numalloc_slow t size (get_size_class size) mmapOk s a := by
              unfold numalloc
              rw [if_neg hsz, if_neg hini2, hat]
              dsimp only
              rw [if_neg hpos]
            rw [he] at hS ⊢
            rw [hslow a hS, harl]
      · have he : numalloc t tnode size mmapOk s = (none, s) := by
          unfold numalloc
          rw [if_neg hsz, if_pos]
          exact hinit
        rw [he] at hS
        exact Bool.noConfusion hS
  · intro hdr hh hpos
    have hneg : ¬hdr.size_class < 0 := by omega
    cases hat : s.arenas t with
    | none =>
      have he : numalloc_free t tnode p s =
          { s with arenas := (Function.update s.arenas t (some
            { fresh_arena tnode with
              free_lists := (Function.update (fresh_arena tnode).free_lists
                hdr.size_class.toNat
                (p :: (fresh_arena tnode).free_lists hdr.size_class.toNat)),
              stats_frees := (fresh_arena tnode).stats_frees + 1 })) } := by
        unfold numalloc_free
        rw [hh]
        dsimp only
        rw [if_neg hneg, hat]
      rw [he]
      rw [thread_frees_eq _ t _ (Function.update_same _ _ _),
        thread_frees_none s t hat]
      rfl
    | some a =>
      have he : numalloc_free t tnode p s =
          { s with arenas := (Function.update s.arenas t (some
            { a with
              free_lists := (Function.update a.free_lists hdr.size_class.toNat
                (p :: a.free_lists hdr.size_class.toNat)),
              stats_frees := a.stats_frees + 1 })) } := by
        unfold numalloc_free
        rw [hh]
        dsimp only
        rw [if_neg hneg, hat]
      rw [he]
      rw [thread_frees_eq _ t _ (Function.update_same _ _ _),
        thread_frees_eq s t a hat]
  · intro hdr hh hneg
    have he : numalloc_free t tnode p s =
        { s with headers := (Function.update s.headers p none) } := by
      unfold numalloc_free free_large_block
      rw [hh]
      dsimp only
      rw [if_pos hneg]
    rw [he]
  · unfold numalloc_get_thread_stats thread_allocs thread_frees
    cases s.arenas t <;> rfl
  · intro h
    unfold numalloc_get_thread_stats
    rw [h]

/-- Witness for C8 (amended): one small allocation and free on a fresh
allocator, observed through `numalloc_get_thread_stats`. -/
theorem thread_counters_amended_witness :
    ((numalloc 0 0 16 true (initialState 1 4096)).1.isSome = true) ∧
    thread_allocs (numalloc 0 0 16 true (initialState 1 4096)).2 0 =
      thread_allocs (initialState 1 4096) 0 + 1 :=
  ⟨by decide,
    (thread_counters_amended 0 0 16 true (initialState 1 4096)
      (Ptr.small 0 16)).1 (by decide)⟩

/-- Claim C8 counterexample: allocate one large block and free it; the
free succeeds (the mapping is gone) but `stats_frees` stays 0 where the
claim demands 1 — the large-free path returns before the counter update. -/
theorem large_free_not_counted :
    (numalloc 0 0 3000 true (initialState 1 4096)).1 = some (Ptr.large 0) ∧
    (numalloc_free 0 0 (Ptr.large 0)
        (numalloc 0 0 3000 true (initialState 1 4096)).2).headers
      (Ptr.large 0) = none ∧
    numalloc_get_thread_stats 0
      (numalloc_free 0 0 (Ptr.large 0)
        (numalloc 0 0 3000 true (initialState 1 4096)).2) = (1, 0) := by
  refine ⟨by decide, by decide, by decide⟩

/-- Claim C2 (amended): in every reachable state, every block on a thread
cache's class-`i` free stack has a live header whose class index is `i`.
The claim's further demand that the header's home node equal the cache's
home node does not hold: `numalloc_free` pushes onto the *freeing*
thread's cache whatever home node the header records (see the
counterexample). -/
theorem thread_cache_class_invariant (s : AllocState) (t i : Nat)
    (arena : ThreadArena) (p : Ptr) (hreach : Reachable s)
    (ha : s.arenas t = some arena) (hp : p ∈ arena.free_lists i) :
    ∃ hdr, s.headers p = some hdr ∧ hdr.size_class = (i : Int) :=
  (reachable_inv hreach).1 t arena i p ha hp

/-- Witness for C2 (amended): after one 16-byte allocation the block at
pool offset 16 sits on thread 0's class-0 stack and its header has class
index 0. -/
theorem thread_cache_class_invariant_witness :
    ∃ hdr, (numalloc 0 0 16 true (initialState 1 4096)).2.headers
        (Ptr.small 0 16) = some hdr ∧ hdr.size_class = ((0 : Nat) : Int) :=
  thread_cache_class_invariant _ 0 0 _ (Ptr.small 0 16)
    (Reachable.step _ _ (Reachable.init 1 4096) (Step.alloc 0 0 16 true _))
    rfl (by decide)

/-- Claim C2 counterexample: thread 0 homed on node 0 allocates a small
block (header home node 0); thread 1 homed on node 1 frees it.  The block
then sits on thread 1's class-0 stack while its header still records home
node 0 ≠ 1, refuting `home_node = T.home_node` on a reachable state. -/
theorem cross_node_free_breaks_home_node :
    ((numalloc_free 1 1 (Ptr.small 0 2032)
        (numalloc 0 0 16 true (initialState 2 4096)).2).arenas 1).map
      ThreadArena.numa_node = some 1 ∧
    Ptr.small 0 2032 ∈
      (((numalloc_free 1 1 (Ptr.small 0 2032)
        (numalloc 0 0 16 true (initialState 2 4096)).2).arenas 1).map
        (fun a => a.free_lists 0)).getD [] ∧
    ((numalloc_free 1 1 (Ptr.small 0 2032)
        (numalloc 0 0 16 true (initialState 2 4096)).2).headers
      (Ptr.small 0 2032)).map BlockHeader.numa_node = some 0 ∧
    Reachable (numalloc_free 1 1 (Ptr.small 0 2032)
      (numalloc 0 0 16 true (initialState 2 4096)).2) := by
  refine ⟨by decide, by decide, by decide, ?_⟩
  exact Reachable.step _ _
    (Reachable.step _ _ (Reachable.init 2 4096) (Step.alloc 0 0 16 true _))
    (Step.free 1 1 (Ptr.small 0 2032) _)

/-- Claim C3 (amended): on every reachable arena,
`header_size ≤ position ≤ reserve_size` and `commit_position ≤ reserve_size`
hold, and `position ≤ commit_position` holds on every arena reachable
without `set_position`; `arena_set_position` accepts exactly the values in
`[header_size, reserve_size]` and ignores all others.  The claim's full
chain `position ≤ commit_position ≤ reserve_size` fails once
`set_position` is allowed, since it accepts any value up to `reserve_size`,
including values beyond the committed prefix (see the counterexample). -/
theorem arena_invariants (a : ArenaAllocator) (pos : Nat) :
    (ArenaReach a → ARENA_HEADER_SIZE ≤ a.position ∧
      a.position ≤ a.reserve_size ∧ a.commit_position ≤ a.reserve_size) ∧
    (ArenaReachNS a → a.position ≤ a.commit_position) ∧
    (ARENA_HEADER_SIZE ≤ pos ∧ pos ≤ a.reserve_size →
      arena_set_position a pos = { a with position := pos }) ∧
    (¬(ARENA_HEADER_SIZE ≤ pos ∧ pos ≤ a.reserve_size) →
      arena_set_position a pos = a) := by
  refine ⟨fun h => ?_, fun h => (arena_reachNS_inv h).2, fun hc => ?_,
    fun hc => ?_⟩
  · obtain ⟨h1, h2, h3, h4, h5, h6, h7⟩ := arena_reach_inv h
    exact ⟨h1, h2, h4⟩
  · unfold arena_set_position
    rw [if_pos hc]
  · unfold arena_set_position
    rw [if_neg hc]

/-- Witness for C3 (amended) on the arena freshly created with an 8 KiB
reserve and a 4 KiB commit. -/
theorem arena_invariants_witness :
    ARENA_HEADER_SIZE ≤ (ArenaAllocator.mk 8192 4096 32 4096).position ∧
    (ArenaAllocator.mk 8192 4096 32 4096).position ≤
      (ArenaAllocator.mk 8192 4096 32 4096).reserve_size ∧
    arena_set_position (ArenaAllocator.mk 8192 4096 32 4096) 100 =
      { ArenaAllocator.mk 8192 4096 32 4096 with position := 100 } := by
  have hreach : ArenaReach (ArenaAllocator.mk 8192 4096 32 4096) :=
    ArenaReach.created 8192 4096 _ (by norm_num) (by norm_num) (by decide)
  have h := arena_invariants (ArenaAllocator.mk 8192 4096 32 4096) 100
  exact ⟨(h.1 hreach).1, (h.1 hreach).2.1, h.2.2.1 (by decide)⟩

/-- Claim C3 counterexample: create an arena with reserve 8192 and commit
4096, then call `set_position 8192` — an accepted value by the claim's own
rule.  The resulting reachable arena has `position = 8192` above
`commit_position = 4096`, refuting
`position ≤ commit_position ≤ reserve_size`. -/
theorem arena_set_position_exceeds_commit :
    ArenaReach (ArenaAllocator.mk 8192 4096 8192 4096) ∧
    ¬((ArenaAllocator.mk 8192 4096 8192 4096).position ≤
      (ArenaAllocator.mk 8192 4096 8192 4096).commit_position) := by
  constructor
  · have hc : ArenaReach (ArenaAllocator.mk 8192 4096 32 4096) :=
      ArenaReach.created 8192 4096 _ (by norm_num) (by norm_num) (by decide)
    have heq : arena_set_position (ArenaAllocator.mk 8192 4096 32 4096) 8192 =
        ArenaAllocator.mk 8192 4096 8192 4096 := by decide
    exact ArenaReach.step _ _ hc
      (heq ▸ ArenaStep.set_position (ArenaAllocator.mk 8192 4096 32 4096) 8192)
  · decide

theorem numalloc_free_removes_large {t tnode : Nat} {p : Ptr} {s : AllocState}
    {hdr : BlockHeader} (hh : s.headers p = some hdr)
    (hneg : hdr.size_class < 0) :
    (numalloc_free t tnode p s).headers p = none := by
  have he : numalloc_free t tnode p s =
      { s with headers := (Function.update s.headers p none) } := by
    unfold numalloc_free free_large_block
    rw [hh]
    dsimp only
    rw [if_pos hneg]
  rw [he]
  show Function.update s.headers p none p = none
  exact Function.update_same _ _ _

theorem numalloc_free_pushes_small {t tnode : Nat} {p : Ptr} {s : AllocState}
    {hdr : BlockHeader} (hh : s.headers p = some hdr)
    (hpos : ¬hdr.size_class < 0) :
    ∃ a2, (numalloc_free t tnode p s).arenas t = some a2 ∧
      p ∈ a2.free_lists hdr.size_class.toNat := by
  cases hat : s.arenas t with
  | none =>
    have he : numalloc_free t tnode p s =
        { s with arenas := (Function.update s.arenas t (some
          { fresh_arena tnode with
            free_lists := (Function.update (fresh_arena tnode).free_lists
              hdr.size_class.toNat
              (p :: (fresh_arena tnode).free_lists hdr.size_class.toNat)),
            stats_frees := (fresh_arena tnode).stats_frees + 1 })) } := by
      unfold numalloc_free
      rw [hh]
      dsimp only
      rw [if_neg hpos, hat]
    rw [he]
    refine ⟨_, Function.update_same _ _ _, ?_⟩
    show p ∈ Function.update (fresh_arena tnode).free_lists
      hdr.size_class.toNat
      (p :: (fresh_arena tnode).free_lists hdr.size_class.toNat)
      hdr.size_class.toNat
    rw [Function.update_same]
    exact List.mem_cons_self _ _
  | some a =>
    have he : numalloc_free t tnode p s =
        { s with arenas := (Function.update s.arenas t (some
          { a with
            free_lists := (Function.update a.free_lists hdr.size_class.toNat
              (p :: a.free_lists hdr.size_class.toNat)),
            stats_frees := a.stats_frees + 1 })) } := by
      unfold numalloc_free
      rw [hh]
      dsimp only
      rw [if_neg hpos, hat]
    rw [he]
    refine ⟨_, Function.update_same _ _ _, ?_⟩
    show p ∈ Function.update a.free_lists hdr.size_class.toNat
      (p :: a.free_lists hdr.size_class.toNat) hdr.size_class.toNat
    rw [Function.update_same]
    exact List.mem_cons_self _ _

/-- Claim C4: `numalloc_realloc(p, n)` behaves as `numalloc(n)` when `p` is
null; frees `p` and returns null when `n = 0`; returns `p` unchanged when
`n ≤ old_capacity`, where `old_capacity` is the class size for small
blocks and the mapping size for large blocks; otherwise it allocates a
fresh block `q`, copies `min(old_capacity, n)` bytes of `p`'s pre-resize
contents into `q`, frees the old block (unmapping it when large, pushing
it onto the freeing thread's class stack when small), and returns `q`. -/
theorem realloc_spec (t tnode : Nat) (ptr : Ptr) (size : Nat) (mmapOk : Bool)
    (s : AllocState) (hdr : BlockHeader) (hinv : Inv s)
    (hh : s.headers ptr = some hdr) :
    (numalloc_realloc t tnode none size mmapOk s =
      numalloc t tnode size mmapOk s) ∧
    (numalloc_realloc t tnode (some ptr) 0 mmapOk s =
      (none, numalloc_free t tnode ptr s)) ∧
    (∀ cap, cap = (if 0 ≤ hdr.size_class then
        SIZE_CLASS_SIZES.getD hdr.size_class.toNat 0 else hdr.size) →
      (1 ≤ size → size ≤ cap →
        numalloc_realloc t tnode (some ptr) size mmapOk s = (some ptr, s)) ∧
      (cap < size → ∀ q, (numalloc t tnode size mmapOk s).1 = some q →
        (numalloc_realloc t tnode (some ptr) size mmapOk s).1 = some q ∧
        (∀ off, off < min cap size →
          (numalloc_realloc t tnode (some ptr) size mmapOk s).2.contents q off =
            s.contents ptr off) ∧
        (hdr.size_class < 0 →
          (numalloc_realloc t tnode (some ptr) size mmapOk s).2.headers ptr =
            none) ∧
        (0 ≤ hdr.size_class → ∃ a2,
          (numalloc_realloc t tnode (some ptr) size mmapOk s).2.arenas t =
            some a2 ∧ ptr ∈ a2.free_lists hdr.size_class.toNat))) := by
  have hfresh : ∀ id, s.next_large_id ≤ id → ptr ≠ Ptr.large id := by
    intro id hid he2
    rw [he2, hinv.2.2.1 id hid] at hh
    exact Option.noConfusion hh
  refine ⟨rfl, rfl, ?_⟩
  intro cap hcap
  constructor
  · intro h1 hle
    unfold numalloc_realloc
    dsimp only
    rw [if_neg (by omega), hh]
    dsimp only
    rw [← hcap, if_pos hle]
  · intro hlt q hq
    obtain ⟨hI, hmono, hcont⟩ := @inv_numalloc t tnode size mmapOk s hinv
    have hh2 : (numalloc t tnode size mmapOk s).2.headers ptr = some hdr :=
      hmono ptr hdr hh
    have hcontp : (numalloc t tnode size mmapOk s).2.contents ptr =
        s.contents ptr := hcont ptr hfresh
    have he : numalloc_realloc t tnode (some ptr) size mmapOk s =
        (some q, numalloc_free t tnode ptr
          { (numalloc t tnode size mmapOk s).2 with
            contents := (Function.update
              (numalloc t tnode size mmapOk s).2.contents q
              (fun off => if off < cap then
                (numalloc t tnode size mmapOk s).2.contents ptr off
                else (numalloc t tnode size mmapOk s).2.contents q off)) }) := by
      unfold numalloc_realloc
      dsimp only
      rw [if_neg (by omega), hh]
      dsimp only
      rw [← hcap, if_neg (by omega), hq]
    have hh3 : ({ (numalloc t tnode size mmapOk s).2 with
        contents := (Function.update
          (numalloc t tnode size mmapOk s).2.contents q
          (fun off => if off < cap then
            (numalloc t tnode size mmapOk s).2.contents ptr off
            else (numalloc t tnode size mmapOk s).2.contents q off)) }
          : AllocState).headers ptr = some hdr := hh2
    refine ⟨by rw [he], ?_, ?_, ?_⟩
    · intro off hoff
      rw [he, numalloc_free_contents]
      show Function.update (numalloc t tnode size mmapOk s).2.contents q
        (fun off => if off < cap then
          (numalloc t tnode size mmapOk s).2.contents ptr off
          else (numalloc t tnode size mmapOk s).2.contents q off) q off =
        s.contents ptr off
      rw [Function.update_same]
      show (if off < cap then
          (numalloc t tnode size mmapOk s).2.contents ptr off
          else (numalloc t tnode size mmapOk s).2.contents q off) =
        s.contents ptr off
      rw [if_pos (by omega), hcontp]
    · intro hneg
      rw [he]
      exact numalloc_free_removes_large hh3 hneg
    · intro hpos
      rw [he]
      exact numalloc_free_pushes_small hh3 (by omega)

/-- Witness for C4: freeing via `resize(p, 0)` after one small allocation. -/
theorem realloc_spec_witness :
    numalloc_realloc 0 0 (some (Ptr.small 0 2032)) 0 true
        (numalloc 0 0 16 true (initialState 1 4096)).2 =
      (none, numalloc_free 0 0 (Ptr.small 0 2032)
        (numalloc 0 0 16 true (initialState 1 4096)).2) :=
  (realloc_spec 0 0 (Ptr.small 0 2032) 0 true
    (numalloc 0 0 16 true (initialState 1 4096)).2
    { size := 16, size_class := 0, numa_node := 0 }
    (inv_numalloc (inv_initialState 1 4096)).1 (by decide)).2.1

end MemoryAllocator
